import Mathlib

/-!
Shallow embedding of the folder-tree traversal-and-replication engine of
`src/assessment.py` (functions `_list_items`, `_copy_items`, `_copy_items_bfs`
and their helpers), together with theorems settling the frozen claims.

Modelling conventions:
* Remote listing pages are given by an environment function `pages`:
  `pages fid` is the list of pages the Drive API serves for folder `fid`
  (one page per `files().list().execute()` call, cursor = page index).
* Failures of the remote calls are injected by oracles indexed by the global
  call counter (`fault` for listing calls, `batchFail` for batch executions,
  `opFail` for per-item create/copy operations inside a batch).
* Python exceptions are the inductive `PyErr`; the `except` clause of
  `_list_items` and the retryable/fatal classification are the functions
  `caught` and `retryable`, read off the source line by line.
* Thread pools are modelled by the canonical sequential schedule: submitted
  batch requests execute in submission order, and callback effects (counters,
  folder id map, log lines) are applied in that order.  The observable log
  effects (items copied, folders listed, depth-limit warnings, sleeps) are
  recorded in the threaded state `St`.
* `time.sleep((2 ** attempt) + random.random())` is recorded as the rational
  `2 ^ attempt + jitter i` where `jitter` is the environment's random stream,
  indexed by the number of sleeps performed so far; `time.sleep(1)` in the
  batch loop is counted in `fixedSleeps`.
-/

/-- A Drive item as returned by `files().list` with fields `id, name, mimeType`. -/
structure Item where
  id : String
  name : String
  mimeType : String
deriving DecidableEq, Repr

/-- The folder mime type constant of the source. -/
def folderMime : String := "application/vnd.google-apps.folder"

/-- `item['mimeType'] == 'application/vnd.google-apps.folder'`. -/
def isFolder (it : Item) : Bool := it.mimeType == folderMime

/-- Python exception classes that the engine can see: `HttpError` (with HTTP
status and whether the body contains `rateLimitExceeded`), `ssl.SSLError`,
`TimeoutError` (with message), `ValueError` (malformed response), and any
other exception class (`other`), which the `except` clauses of `_list_items`
do not catch. -/
inductive PyErr where
  | http (status : Nat) (rateLimited : Bool)
  | ssl
  | timeout (msg : String)
  | valueErr
  | other
deriving DecidableEq, Repr

/-- The exception classes caught by `except (HttpError, SSLError, TimeoutError,
ValueError)` in `_list_items`. -/
def caught : PyErr → Bool
  | .http _ _ => true
  | .ssl => true
  | .timeout _ => true
  | .valueErr => true
  | .other => false

/-- Among the caught classes, the ones on which `_list_items` sleeps and
retries: `HttpError` with status in `[403, 500, 503]`, `SSLError`,
`TimeoutError`, `ValueError`.  A caught error that is not retryable hits the
`else: break` branch. -/
def retryable : PyErr → Bool
  | .http s _ => s == 403 || s == 500 || s == 503
  | .ssl => true
  | .timeout _ => true
  | .valueErr => true
  | .other => false

/-- The message of the `TimeoutError` raised after the retry loop:
`f"Failed to list items in folder {folder_id} after {MAX_RETRIES} attempts"`. -/
def exhaustMsg (fid : String) (n : Nat) : String :=
  "Failed to list items in folder " ++ fid ++ " after " ++ toString n ++ " attempts"

/-- Observable effects threaded through the engine: number of listing API
calls made, the backoff sleeps performed (in order, as rationals), the folders
for which the `Max recursion depth reached` warning was logged, the folders
actually listed (a listing call that passed the depth guard), the ids of items
whose copy/create succeeded (the `File copied` / `Folder copied` log lines),
the number of batch executions, and the number of fixed `time.sleep(1)`
delays of the batch loop. -/
structure St where
  calls : Nat
  sleeps : List ℚ
  depthEvents : List String
  listed : List String
  copiedIds : List String
  batches : Nat
  fixedSleeps : Nat
deriving DecidableEq, Repr

/-- The initial state: nothing has happened yet. -/
def st0 : St := ⟨0, [], [], [], [], 0, 0⟩

/-- The environment: configuration values (from `config.json`), the remote
directory content, and the failure/randomness oracles. -/
structure Env where
  maxDepth : Nat
  maxRetries : Nat
  batchSize : Nat
  pages : String → List (List Item)
  fault : Nat → Option PyErr
  jitter : Nat → ℚ
  opFail : String → Bool
  newId : String → String
  batchFail : Nat → Option PyErr

/-- The inner `for file in files` loop of `_list_items` when recursion is on:
for every folder in the current page's files, call the child lister and extend
`items` with its result; a child exception aborts the loop (and is reported
with the items accumulated so far, since `items` already holds them). -/
def recurseFold (child : String → St → Except PyErr (List Item) × St) :
    List Item → List Item → St → Option PyErr × List Item × St
  | [], items, st => (none, items, st)
  | f :: rest, items, st =>
    if isFolder f then
      match child f.id st with
      | (.ok sub, st1) => recurseFold child rest (items ++ sub) st1
      | (.error e, st1) => (some e, items, st1)
    else recurseFold child rest items st

/-- Outcome of one attempt of the `while True` pagination loop: either the
loop broke out normally with the accumulated items (`done`), or an exception
`e` escaped with the items accumulated so far and the page index (`pageToken`)
current at that moment (`fail`). -/
inductive PassOut where
  | done (items : List Item)
  | fail (e : PyErr) (items : List Item) (idx : Nat)
deriving DecidableEq, Repr

/-- One attempt of the pagination loop of `_list_items`, starting at page
index `idx` with `rest = (env.pages fid).drop idx` the pages still to fetch.
Each iteration performs one `files().list().execute()` call (counted in
`St.calls`, possibly failing per the `fault` oracle), extends `items` with the
page's files, recurses into the page's folders when `doRec`, then advances the
page token; the loop breaks when no `nextPageToken` is present (no pages
remain after the current one). -/
def pageRec (child : String → St → Except PyErr (List Item) × St) :
    Bool → List Item → List Item → St → Option PyErr × List Item × St
  | true, pg, items, st => recurseFold child pg items st
  | false, _, items, st => (none, items, st)

def pagePass (env : Env) (child : String → St → Except PyErr (List Item) × St)
    (doRec : Bool) :
    List (List Item) → Nat → List Item → St → PassOut × St
  | [], idx, items, st =>
    let st1 : St := { st with calls := st.calls + 1 }
    match env.fault st.calls with
    | some e => (.fail e items idx, st1)
    | none => (.done items, st1)
  | pg :: rest, idx, items, st =>
    let st1 : St := { st with calls := st.calls + 1 }
    match env.fault st.calls with
    | some e => (.fail e items idx, st1)
    | none =>
      match pageRec child doRec pg (items ++ pg) st1 with
      | (some e, items2, st2) => (.fail e items2 idx, st2)
      | (none, items2, st2) =>
        match rest with
        | [] => (.done items2, st2)
        | pg2 :: rest2 => pagePass env child doRec (pg2 :: rest2) (idx + 1) items2 st2

/-- The `for attempt in range(MAX_RETRIES)` loop of `_list_items`.
`aleft` is the number of iterations still available, `n` the current value of
`attempt`; `idx` and `items` persist across attempts (they are initialised
before the loop in the source).  A successful pass returns the items; a caught
retryable error sleeps `2 ^ attempt + random.random()` and retries; a caught
non-retryable error breaks the loop; an uncaught error propagates; when the
loop ends, `TimeoutError(exhaustMsg)` is raised. -/
def retryLoop (env : Env) (child : String → St → Except PyErr (List Item) × St)
    (doRec : Bool) (fid : String) :
    Nat → Nat → Nat → List Item → St → Except PyErr (List Item) × St
  | 0, _, _, _, st => (.error (.timeout (exhaustMsg fid env.maxRetries)), st)
  | aleft + 1, n, idx, items, st =>
    match pagePass env child doRec ((env.pages fid).drop idx) idx items st with
    | (.done its, st1) => (.ok its, st1)
    | (.fail e its idx1, st1) =>
      if caught e then
        if retryable e then
          let st2 : St :=
            { st1 with sleeps := st1.sleeps ++ [(2 : ℚ) ^ n + env.jitter st1.sleeps.length] }
          retryLoop env child doRec fid aleft (n + 1) idx1 its st2
        else
          (.error (.timeout (exhaustMsg fid env.maxRetries)), st1)
      else (.error e, st1)

/-- `_list_items(service, folder_id, depth, recursive)`.  If
`depth > MAX_RECURSION_DEPTH`, log the depth warning and return `[]`;
otherwise run the retry loop around the pagination loop, recursing into
folders of each page (at `depth + 1`) exactly when `recursive` and
`depth < MAX_RECURSION_DEPTH`. -/
def listItems (env : Env) (fid : String) (depth : Nat) (recursive : Bool) (st : St) :
    Except PyErr (List Item) × St :=
  if depth > env.maxDepth then
    (.ok [], { st with depthEvents := st.depthEvents ++ [fid] })
  else
    retryLoop env
      (fun cid st1 =>
        if h : depth < env.maxDepth then listItems env cid (depth + 1) recursive st1
        else (.ok [], st1))
      (recursive && decide (depth < env.maxDepth))
      fid env.maxRetries 0 0 [] { st with listed := st.listed ++ [fid] }
termination_by env.maxDepth + 1 - depth
decreasing_by omega

/-- The replication counters `{'copied_file_count', 'copied_folder_count'}`. -/
structure Cnt where
  files : Nat
  folders : Nat
deriving DecidableEq, Repr

/-- Componentwise sum of two counter records. -/
def cntAdd (a b : Cnt) : Cnt := ⟨a.files + b.files, a.folders + b.folders⟩

/-- `folder_id_map.get(key)` on the association list representing the dict
(first binding wins; the engine's request ids are the distinct source ids). -/
def lookupId : List (String × String) → String → Option String
  | [], _ => none
  | (k, v) :: rest, key => if k == key then some v else lookupId rest key

/-- The per-item part of `handle_batch_response`: on an exception the item is
only logged and skipped; on success a folder response increments
`copied_folder_count` and records `request_id -> new id` in the folder id map,
a file response increments `copied_file_count`.  Either success also produces
a `copied` log line, recorded in `St.copiedIds`. -/
def handleItem (env : Env) (it : Item) (cnt : Cnt) (idMap : List (String × String))
    (st : St) : Cnt × List (String × String) × St :=
  if env.opFail it.id then (cnt, idMap, st)
  else if isFolder it then
    (⟨cnt.files, cnt.folders + 1⟩, idMap ++ [(it.id, env.newId it.id)],
      { st with copiedIds := st.copiedIds ++ [it.id] })
  else
    (⟨cnt.files + 1, cnt.folders⟩, idMap, { st with copiedIds := st.copiedIds ++ [it.id] })

/-- The callbacks of one executed batch, in request order. -/
def runItems (env : Env) :
    List Item → Cnt → List (String × String) → St → Cnt × List (String × String) × St
  | [], cnt, m, st => (cnt, m, st)
  | it :: rest, cnt, m, st =>
    let r := handleItem env it cnt m st
    runItems env rest r.1 r.2.1 r.2.2

/-- One `create_batch_request(chunk).execute()` call: the `batchFail` oracle
(indexed by the global batch counter) decides whether the whole batch request
raises; if it does, none of its per-item callbacks fire; otherwise the
callbacks run for every item of the chunk. -/
def runChunk (env : Env) (chunk : List Item) (cnt : Cnt) (m : List (String × String))
    (st : St) : Option PyErr × Cnt × List (String × String) × St :=
  let stb : St := { st with batches := st.batches + 1 }
  match env.batchFail st.batches with
  | some e => (some e, cnt, m, stb)
  | none =>
    let r := runItems env chunk cnt m stb
    (none, r.1, r.2.1, r.2.2)

/-- Execution of all submitted chunk batches, in submission order (the
canonical schedule for the worker pool); returns the per-batch outcome list
(what each `future.result()` would raise) alongside the accumulated counters
and folder id map. -/
def runChunks (env : Env) :
    List (List Item) → Cnt → List (String × String) → St →
      List (Option PyErr) × Cnt × List (String × String) × St
  | [], cnt, m, st => ([], cnt, m, st)
  | ch :: rest, cnt, m, st =>
    let r := runChunk env ch cnt m st
    let r2 := runChunks env rest r.2.1 r.2.2.1 r.2.2.2
    (r.1 :: r2.1, r2.2.1, r2.2.2.1, r2.2.2.2)

/-- `items[i:i + BATCH_SIZE] for i in range(0, len(items), BATCH_SIZE)` for a
positive batch size `B` (the configuration requires `B ≥ 1`; for `B = 0` the
source raises in `range`, and this model chunks by 1). -/
def chunkList (B : Nat) : List Item → List (List Item)
  | [] => []
  | x :: xs => (x :: xs.take (B - 1)) :: chunkList B (xs.drop (B - 1))
termination_by l => l.length
decreasing_by simp [List.length_drop]; omega

/-- The chunking of `_copy_items`: split only `if len(items) > BATCH_SIZE`,
otherwise submit the whole list (even when it is empty) as a single batch. -/
def dfsChunks (B : Nat) (items : List Item) : List (List Item) :=
  if items.length > B then chunkList B items else [items]

/-- The `for future in as_completed(futures)` loop of `_copy_items` (in the
canonical submission order): a `rateLimitExceeded` `HttpError` logs a warning
and performs `time.sleep(1)`; any other `HttpError` is logged; any other
exception is uncaught and propagates immediately. -/
def dfsLoop1 : List (Option PyErr) → St → Option PyErr × St
  | [], st => (none, st)
  | none :: rest, st => dfsLoop1 rest st
  | some e :: rest, st =>
    match e with
    | .http _ rl =>
      dfsLoop1 rest (if rl then { st with fixedSleeps := st.fixedSleeps + 1 } else st)
    | _ => (some e, st)

/-- The `for future in futures: future.result()` completion check of
`_copy_items`: re-raises the first stored exception (uncaught there). -/
def firstFailure : List (Option PyErr) → Option PyErr
  | [] => none
  | none :: rest => firstFailure rest
  | some e :: _ => some e

/-- The `if recursive and depth < MAX_RECURSION_DEPTH` loop of `_copy_items`:
for each folder item, look its id up in the frame's folder id map; when the
lookup yields a truthy id (present and non-empty), copy the nested items into
the new folder via `next` and add the nested counters; otherwise skip. -/
def dfsRecurse (next : String → String → St → Except PyErr Cnt × St)
    (idMap : List (String × String)) :
    List Item → Cnt → St → Except PyErr Cnt × St
  | [], cnt, st => (.ok cnt, st)
  | it :: rest, cnt, st =>
    if isFolder it then
      match lookupId idMap it.id with
      | some nid =>
        if nid = "" then dfsRecurse next idMap rest cnt st
        else
          match next it.id nid st with
          | (.error e, st1) => (.error e, st1)
          | (.ok c, st1) => dfsRecurse next idMap rest (cntAdd cnt c) st1
      | none => dfsRecurse next idMap rest cnt st
    else dfsRecurse next idMap rest cnt st

/-- `_copy_items(service, source_folder_id, destination_folder_id, depth,
recursive)`: depth guard (warning + zero counters), non-recursive listing of
the source folder (exceptions propagate), chunking, batch execution, the two
future-checking loops, then the recursive descent through the folder id map. -/
def copyItems (env : Env) (src dest : String) (depth : Nat) (recursive : Bool)
    (st : St) : Except PyErr Cnt × St :=
  if depth > env.maxDepth then
    (.ok ⟨0, 0⟩, { st with depthEvents := st.depthEvents ++ [src] })
  else
    match listItems env src 0 false st with
    | (.error e, st1) => (.error e, st1)
    | (.ok items, st1) =>
      let r := runChunks env (dfsChunks env.batchSize items) ⟨0, 0⟩ [] st1
      match dfsLoop1 r.1 r.2.2.2 with
      | (some e, st2) => (.error e, st2)
      | (none, st2) =>
        match firstFailure r.1 with
        | some e => (.error e, st2)
        | none =>
          if recursive && decide (depth < env.maxDepth) then
            dfsRecurse
              (fun cid nid st3 =>
                if h : depth < env.maxDepth then copyItems env cid nid (depth + 1) true st3
                else (.ok ⟨0, 0⟩, st3))
              r.2.2.1 items r.2.1 st2
          else (.ok r.2.1, st2)
termination_by env.maxDepth + 1 - depth
decreasing_by omega

/-- One level of `_copy_items_bfs`: dequeue every pair of the level, list each
source folder (a listing exception propagates out of the whole function, the
effects of the pairs already processed being kept), chunk its items and
execute the batches; counters and the level's shared folder id map accumulate
across the level.  Batch-execution failures are swallowed by the two
`except Exception` loops, so the outcome list is discarded. -/
def bfsLevelGo (env : Env) :
    List (String × String) → Cnt → List (String × String) → St →
      Option PyErr × Cnt × List (String × String) × St
  | [], cnt, m, st => (none, cnt, m, st)
  | (src, _) :: rest, cnt, m, st =>
    match listItems env src 0 false st with
    | (.error e, st1) => (some e, cnt, m, st1)
    | (.ok items, st1) =>
      let r := runChunks env (chunkList env.batchSize items) cnt m st1
      bfsLevelGo env rest r.2.1 r.2.2.1 r.2.2.2

/-- The `while queue` loop of `_copy_items_bfs`, with `fuel` bounding the
number of levels processed (the source loop has no bound of its own; `none`
models a run that still had work after `fuel` levels).  After a level, the
next queue is exactly the level's folder id map entries
`(source_id, new_destination_id)`, in insertion order. -/
def bfsLoop (env : Env) :
    Nat → List (String × String) → Cnt → St → Option (Except PyErr Cnt) × St
  | _, [], cnt, st => (some (.ok cnt), st)
  | 0, _ :: _, _, st => (none, st)
  | fuel + 1, p :: q, cnt, st =>
    match bfsLevelGo env (p :: q) cnt [] st with
    | (some e, _, _, st1) => (some (.error e), st1)
    | (none, cnt1, m1, st1) => bfsLoop env fuel m1 cnt1 st1

/-- `_copy_items_bfs(service, source_folder_id, destination_folder_id)`:
queue seeded with the root pair, zero counters. -/
def copyItemsBfs (env : Env) (fuel : Nat) (src dest : String) (st : St) :
    Option (Except PyErr Cnt) × St :=
  bfsLoop env fuel [(src, dest)] ⟨0, 0⟩ st

/-! ## Derived notions used to state the claims -/

/-- Number of non-folder items in a listing. -/
def countFiles (l : List Item) : Nat := (l.filter (fun it => !isFolder it)).length

/-- Number of folder items in a listing. -/
def countFolders (l : List Item) : Nat := (l.filter isFolder).length

/-- The counter contribution of one folder's direct children. -/
def levelCnt (σ : String → List Item) (fid : String) : Cnt :=
  ⟨countFiles (σ fid), countFolders (σ fid)⟩

/-- Componentwise sum of a list of counter records. -/
def sumCnt (l : List Cnt) : Cnt := ⟨(l.map Cnt.files).sum, (l.map Cnt.folders).sum⟩

/-- The counters the depth-first replication produces with `b` descents still
allowed below the current folder: the children of `fid`, plus (when `b ≥ 1`)
the recursive counters of each folder child with budget `b - 1`. -/
def dfsCnt (σ : String → List Item) : Nat → String → Cnt
  | 0, fid => levelCnt σ fid
  | b + 1, fid =>
    cntAdd (levelCnt σ fid)
      (sumCnt (((σ fid).filter isFolder).map (fun f => dfsCnt σ b f.id)))

/-- The item sequence a recursive listing returns with `b` descents still
allowed: the current folder's children followed, for each folder child in
order, by its own sequence with budget `b - 1`. -/
def listedUpTo (σ : String → List Item) : Nat → String → List Item
  | 0, fid => σ fid
  | b + 1, fid =>
    σ fid ++ (((σ fid).filter isFolder).map (fun f => listedUpTo σ b f.id)).flatten

/-- Every chain of nested folders below `fid` has length at most `d`
(`d = 0`: no folder children at all). -/
def folderDepthLe (σ : String → List Item) (fid : String) : Nat → Bool
  | 0 => (σ fid).all (fun it => !isFolder it)
  | d + 1 => (σ fid).all (fun it => !isFolder it || folderDepthLe σ it.id d)

/-- `ceil(a / b)` on naturals. -/
def ceilDiv (a b : Nat) : Nat := (a + b - 1) / b

/-- A well-behaved remote: every folder's listing is a single page given by
`σ`, no listing faults, no batch-level faults, zero jitter, every per-item
operation succeeds, and created folders get the fresh id `"c-" ++ source id`. -/
def treeEnv (σ : String → List Item) (maxD maxR B : Nat) : Env :=
  { maxDepth := maxD, maxRetries := maxR, batchSize := B,
    pages := fun fid => [σ fid], fault := fun _ => none, jitter := fun _ => 0,
    opFail := fun _ => false, newId := fun s => "c-" ++ s, batchFail := fun _ => none }

/-! ## Batch partitioning (claim C6) -/

theorem chunkList_join (B : Nat) (hB : 1 ≤ B) (l : List Item) :
    (chunkList B l).flatten = l := by
  have key : ∀ n (l : List Item), l.length ≤ n → (chunkList B l).flatten = l := by
    intro n
    induction n with
    | zero =>
      intro l hl
      have : l = [] := List.length_eq_zero.mp (Nat.le_zero.mp hl)
      subst this; simp [chunkList]
    | succ n ih =>
      intro l hl
      match l with
      | [] => simp [chunkList]
      | x :: xs =>
        rw [chunkList]
        have hlen : (xs.drop (B - 1)).length ≤ n := by
          simp only [List.length_drop]
          have := List.length_cons x xs ▸ hl
          omega
        simp only [List.flatten_cons, ih _ hlen, List.cons_append]
        rw [List.take_append_drop]
  exact key l.length l le_rfl

theorem chunkList_length (B : Nat) (hB : 1 ≤ B) (l : List Item) :
    (chunkList B l).length = ceilDiv l.length B := by
  have key : ∀ n (l : List Item), l.length ≤ n →
      (chunkList B l).length = ceilDiv l.length B := by
    intro n
    induction n with
    | zero =>
      intro l hl
      have : l = [] := List.length_eq_zero.mp (Nat.le_zero.mp hl)
      subst this
      simp [chunkList, ceilDiv, Nat.div_eq_of_lt (by omega : B - 1 < B)]
    | succ n ih =>
      intro l hl
      match l with
      | [] => simp [chunkList, ceilDiv, Nat.div_eq_of_lt (by omega : B - 1 < B)]
      | x :: xs =>
        rw [chunkList]
        have hlen : (xs.drop (B - 1)).length ≤ n := by
          simp only [List.length_drop]
          have := List.length_cons x xs ▸ hl
          omega
        simp only [List.length_cons, ih _ hlen, List.length_drop]
        -- goal: ceilDiv (xs.length - (B - 1)) B + 1 = ceilDiv (xs.length + 1) B
        unfold ceilDiv
        rcases le_or_lt B (xs.length + 1) with h | h
        · have e1 : xs.length + 1 + B - 1 = (xs.length - (B - 1) + B - 1) + B := by omega
          rw [e1, Nat.add_div_right _ (by omega)]
        · have e0 : xs.length - (B - 1) = 0 := by omega
          rw [e0]
          have e1 : xs.length + 1 + B - 1 = xs.length + B := by omega
          rw [e1]
          have e2 : (0 + B - 1) / B = 0 := Nat.div_eq_of_lt (by omega)
          rw [e2]
          have e3 : (xs.length + B) / B = xs.length / B + 1 := Nat.add_div_right _ (by omega)
          rw [e3, Nat.div_eq_of_lt (by omega)]
  exact key l.length l le_rfl

/-- C6 (amended).  With a positive batch size `B`: the breadth-first path
always creates exactly `ceil(N/B)` chunk groups; the depth-first path does so
for every non-empty input list, but for `N = 0` it creates one (empty) group
instead of zero, because `_copy_items` only splits when `len(items) >
BATCH_SIZE` and otherwise submits `[items]` as is; in both paths the
concatenation of the groups is exactly the input list, so the union of the
group item-sets has no duplicates and no omissions. -/
theorem batch_partition_amended (B : Nat) (hB : 1 ≤ B) :
    (∀ items : List Item,
        (chunkList B items).length = ceilDiv items.length B ∧
        (chunkList B items).flatten = items) ∧
    (∀ items : List Item, items ≠ [] →
        (dfsChunks B items).length = ceilDiv items.length B) ∧
    (∀ items : List Item, (dfsChunks B items).flatten = items) := by
  refine ⟨fun items => ⟨chunkList_length B hB items, chunkList_join B hB items⟩,
    fun items hne => ?_, fun items => ?_⟩
  · unfold dfsChunks
    split
    · exact chunkList_length B hB items
    · have h1 : 1 ≤ items.length := by
        cases items with
        | nil => exact absurd rfl hne
        | cons a l => simp
      have h2 : ¬ items.length > B := by assumption
      simp only [List.length_cons, List.length_nil]
      unfold ceilDiv
      have e1 : items.length + B - 1 = (items.length - 1) + B := by omega
      rw [e1, Nat.add_div_right _ (by omega), Nat.div_eq_of_lt (by omega)]
  · unfold dfsChunks
    split
    · exact chunkList_join B hB items
    · simp

/-- C6 counterexample: for the empty input list and batch size 2 the
depth-first path creates one chunk group, not `ceil(0/2) = 0` as the claim
states for every `N`. -/
theorem batch_partition_counterexample :
    (dfsChunks 2 ([] : List Item)).length = 1 ∧ ceilDiv 0 2 = 0 := by
  constructor
  · rfl
  · rfl

/-- Witness for `batch_partition_amended` at `B = 2` and a concrete
three-item list. -/
theorem batch_partition_witness :
    1 ≤ 2 ∧
      ((chunkList 2 [⟨"x", "x", ""⟩, ⟨"y", "y", ""⟩, ⟨"z", "z", ""⟩]).length =
          ceilDiv 3 2 ∧
        (dfsChunks 2 [(⟨"x", "x", ""⟩ : Item)]).flatten = [⟨"x", "x", ""⟩]) := by
  have h := batch_partition_amended 2 (by decide)
  exact ⟨by decide, (h.1 [⟨"x", "x", ""⟩, ⟨"y", "y", ""⟩, ⟨"z", "z", ""⟩]).1,
    h.2.2 [⟨"x", "x", ""⟩]⟩

/-! ## Basic behaviour of the pagination pass and the retry loop -/

theorem pagePass_nil (env : Env) (child : String → St → Except PyErr (List Item) × St)
    (doRec : Bool) (idx : Nat) (items : List Item) (st : St)
    (hf : env.fault st.calls = none) :
    pagePass env child doRec [] idx items st =
      (.done items, { st with calls := st.calls + 1 }) := by
  simp [pagePass, hf]

/-- A pagination pass with recursion off and no fault in its call window
fetches every remaining page and returns all their files in order. -/
theorem pagePass_ok (env : Env) (child : String → St → Except PyErr (List Item) × St) :
    ∀ (rest : List (List Item)) (idx : Nat) (items : List Item) (st : St),
      rest ≠ [] →
      (∀ i, i < rest.length → env.fault (st.calls + i) = none) →
      pagePass env child false rest idx items st =
        (.done (items ++ rest.flatten), { st with calls := st.calls + rest.length }) := by
  intro rest
  induction rest with
  | nil => intro _ _ _ h _; exact absurd rfl h
  | cons pg rest ih =>
    intro idx items st _ hf
    have h0 : env.fault st.calls = none := by simpa using hf 0 (by simp)
    cases rest with
    | nil => simp [pagePass, pageRec, h0]
    | cons pg2 rest2 =>
      rw [pagePass]
      simp only [h0, pageRec]
      rw [ih (idx + 1) (items ++ pg) { st with calls := st.calls + 1 } (by simp)
        (fun i hi => by
          have := hf (i + 1) (by simpa using Nat.succ_lt_succ hi)
          simpa [Nat.add_assoc, Nat.add_comm 1 i] using this)]
      simp only [Prod.mk.injEq, PassOut.done.injEq, List.flatten_cons,
        List.append_assoc, List.length_cons, St.mk.injEq, and_true, true_and]
      omega

/-- A pagination pass with recursion off whose first fault occurs `d` calls
in (fetching page `idx + d`) returns the files of the pages before the fault
and reports the failing page's index, so that a retry resumes there. -/
theorem pagePass_fault (env : Env) (child : String → St → Except PyErr (List Item) × St)
    (e : PyErr) :
    ∀ (d : Nat) (rest : List (List Item)) (idx : Nat) (items : List Item) (st : St),
      d < rest.length →
      env.fault (st.calls + d) = some e →
      (∀ i, i < d → env.fault (st.calls + i) = none) →
      pagePass env child false rest idx items st =
        (.fail e (items ++ (rest.take d).flatten) (idx + d),
          { st with calls := st.calls + (d + 1) }) := by
  intro d
  induction d with
  | zero =>
    intro rest idx items st hd hf _
    have h0 : env.fault st.calls = some e := by simpa using hf
    cases rest with
    | nil => simp at hd
    | cons pg rest => simp [pagePass, h0]
  | succ d ih =>
    intro rest idx items st hd hf hnone
    cases rest with
    | nil => simp at hd
    | cons pg rest =>
      have h0 : env.fault st.calls = none := by simpa using hnone 0 (by omega)
      cases rest with
      | nil => simp at hd
      | cons pg2 rest2 =>
        rw [pagePass]
        simp only [h0, pageRec]
        rw [ih (pg2 :: rest2) (idx + 1) (items ++ pg) { st with calls := st.calls + 1 }
          (by simpa using hd)
          (by simpa [Nat.add_assoc, Nat.add_comm 1 d] using hf)
          (fun i hi => by
            have := hnone (i + 1) (by omega)
            simpa [Nat.add_assoc, Nat.add_comm 1 i] using this)]
        simp only [Prod.mk.injEq, PassOut.fail.injEq, List.take_succ_cons,
          List.flatten_cons, List.append_assoc, St.mk.injEq, and_true, true_and]
        omega

/-- A pass whose very first call faults reports the fault with `items` and
`idx` unchanged, whatever the remaining pages are. -/
theorem pagePass_fault0 (env : Env) (child : String → St → Except PyErr (List Item) × St)
    (doRec : Bool) (rest : List (List Item)) (idx : Nat) (items : List Item) (st : St)
    (e : PyErr) (h0 : env.fault st.calls = some e) :
    pagePass env child doRec rest idx items st =
      (.fail e items idx, { st with calls := st.calls + 1 }) := by
  cases rest with
  | nil => simp [pagePass, h0]
  | cons pg rest => simp [pagePass, h0]

/-- An error that the `except` clause does not catch propagates immediately
out of the retry loop, after the single call that raised it. -/
theorem retryLoop_uncaught (env : Env)
    (child : String → St → Except PyErr (List Item) × St) (doRec : Bool) (fid : String)
    (e : PyErr) (he : caught e = false) :
    ∀ (a n idx : Nat) (items : List Item) (st : St), 1 ≤ a →
      env.fault st.calls = some e →
      retryLoop env child doRec fid a n idx items st =
        (.error e, { st with calls := st.calls + 1 }) := by
  intro a n idx items st ha h0
  obtain ⟨b, rfl⟩ : ∃ b, a = b + 1 := ⟨a - 1, by omega⟩
  rw [retryLoop, pagePass_fault0 env child doRec _ idx items st e h0]
  simp [he]

/-- A caught but non-retryable error (an `HttpError` whose status is not in
`[403, 500, 503]`) breaks the retry loop after its single call: the loop does
not re-attempt, and the error surfaced is the generic `TimeoutError` of the
exhaustion path, not the original error. -/
theorem retryLoop_fatal (env : Env)
    (child : String → St → Except PyErr (List Item) × St) (doRec : Bool) (fid : String)
    (e : PyErr) (he : caught e = true) (hre : retryable e = false) :
    ∀ (a n idx : Nat) (items : List Item) (st : St), 1 ≤ a →
      env.fault st.calls = some e →
      retryLoop env child doRec fid a n idx items st =
        (.error (.timeout (exhaustMsg fid env.maxRetries)),
          { st with calls := st.calls + 1 }) := by
  intro a n idx items st ha h0
  obtain ⟨b, rfl⟩ : ∃ b, a = b + 1 := ⟨a - 1, by omega⟩
  rw [retryLoop, pagePass_fault0 env child doRec _ idx items st e h0]
  simp [he, hre]

/-- When every available attempt fails at its first call with a caught
retryable error, the loop sleeps `2 ^ attempt + jitter` after each attempt and
finally raises the `TimeoutError` carrying the folder id and `MAX_RETRIES`. -/
theorem retryLoop_exhaust (env : Env)
    (child : String → St → Except PyErr (List Item) × St) (doRec : Bool) (fid : String) :
    ∀ (a n idx : Nat) (items : List Item) (st : St),
      (∀ i, i < a → ∃ e, env.fault (st.calls + i) = some e ∧
        caught e = true ∧ retryable e = true) →
      retryLoop env child doRec fid a n idx items st =
        (.error (.timeout (exhaustMsg fid env.maxRetries)),
          { st with
              calls := st.calls + a,
              sleeps := st.sleeps ++ (List.range a).map
                (fun i => (2 : ℚ) ^ (n + i) + env.jitter (st.sleeps.length + i)) }) := by
  intro a
  induction a with
  | zero =>
    intro n idx items st _
    rw [retryLoop]
    simp
  | succ a ih =>
    intro n idx items st hfaults
    obtain ⟨e, h0, hc, hr⟩ := hfaults 0 (by omega)
    rw [retryLoop, pagePass_fault0 env child doRec _ idx items st e (by simpa using h0)]
    simp only [hc, hr, if_true]
    rw [ih (n + 1) idx items _ (fun i hi => by
      obtain ⟨e2, hf2, hc2, hr2⟩ := hfaults (i + 1) (by omega)
      exact ⟨e2, by simpa [Nat.add_assoc, Nat.add_comm 1 i] using hf2, hc2, hr2⟩)]
    simp only [Prod.mk.injEq, St.mk.injEq, and_true, true_and,
      List.length_append, List.length_cons, List.length_nil]
    refine ⟨by omega, ?_⟩
    rw [List.append_assoc]
    congr 1
    rw [List.range_succ_eq_map, List.map_cons, List.map_map]
    simp only [List.singleton_append, Nat.add_zero]
    congr 1
    refine List.map_congr_left (fun i _ => ?_)
    simp only [Function.comp_apply, Nat.succ_eq_add_one]
    have e1 : n + 1 + i = n + (i + 1) := by omega
    have e2 : st.sleeps.length + (0 + 1) + i = st.sleeps.length + (i + 1) := by omega
    rw [e1, e2]

/-- Retry behaviour on a single-page listing that fails `k` times with caught
retryable errors and then succeeds: the loop returns the page's files after
exactly `k + 1` calls, having slept `2 ^ attempt + jitter` after each of the
`k` failed attempts. -/
theorem retryLoop_k_ok (env : Env)
    (child : String → St → Except PyErr (List Item) × St) (fid : String)
    (pg : List Item) (hp : env.pages fid = [pg]) :
    ∀ (k a n : Nat) (st : St), k < a →
      (∀ i, i < k → ∃ e, env.fault (st.calls + i) = some e ∧
        caught e = true ∧ retryable e = true) →
      env.fault (st.calls + k) = none →
      retryLoop env child false fid a n 0 [] st =
        (.ok pg,
          { st with
              calls := st.calls + (k + 1),
              sleeps := st.sleeps ++ (List.range k).map
                (fun i => (2 : ℚ) ^ (n + i) + env.jitter (st.sleeps.length + i)) }) := by
  intro k
  induction k with
  | zero =>
    intro a n st ha _ h0
    obtain ⟨b, rfl⟩ : ∃ b, a = b + 1 := ⟨a - 1, by omega⟩
    rw [retryLoop]
    rw [show (env.pages fid).drop 0 = [pg] by simp [hp]]
    rw [pagePass_ok env child [pg] 0 [] st (by simp)
      (fun i hi => by
        have : i = 0 := by simpa using hi
        subst this
        simpa using h0)]
    simp
  | succ k ih =>
    intro a n st ha hf h0
    obtain ⟨b, rfl⟩ : ∃ b, a = b + 1 := ⟨a - 1, by omega⟩
    obtain ⟨e, he, hc, hr⟩ := hf 0 (by omega)
    rw [retryLoop, pagePass_fault0 env child false _ 0 [] st e (by simpa using he)]
    simp only [hc, hr, if_true]
    rw [ih b (n + 1)
      { st with
          calls := st.calls + 1,
          sleeps := st.sleeps ++ [(2 : ℚ) ^ n + env.jitter st.sleeps.length] }
      (by omega)
      (fun i hi => by
        obtain ⟨e2, hf2, hc2, hr2⟩ := hf (i + 1) (by omega)
        exact ⟨e2, by simpa [Nat.add_assoc, Nat.add_comm 1 i] using hf2, hc2, hr2⟩)
      (by simpa [Nat.add_assoc, Nat.add_comm 1 k] using h0)]
    simp only [Prod.mk.injEq, St.mk.injEq, and_true, true_and,
      List.length_append, List.length_cons, List.length_nil]
    refine ⟨by omega, ?_⟩
    rw [List.append_assoc]
    congr 1
    rw [List.range_succ_eq_map, List.map_cons, List.map_map]
    simp only [List.singleton_append, Nat.add_zero]
    congr 1
    refine List.map_congr_left (fun i _ => ?_)
    simp only [Function.comp_apply, Nat.succ_eq_add_one]
    have e1 : n + 1 + i = n + (i + 1) := by omega
    have e2 : st.sleeps.length + (0 + 1) + i = st.sleeps.length + (i + 1) := by omega
    rw [e1, e2]

/-- One transient failure while fetching page `t` of a multi-page listing:
the pages fetched before the failure are kept, only page `t` is re-requested
after one backoff sleep, and the final result is every page's files exactly
once, at the cost of `#pages + 1` calls. -/
theorem retryLoop_midfault_ok (env : Env)
    (child : String → St → Except PyErr (List Item) × St) (fid : String)
    (pgs : List (List Item)) (hp : env.pages fid = pgs) (t : Nat) (e : PyErr)
    (ht : t < pgs.length) (hc : caught e = true) (hr : retryable e = true) :
    ∀ (a n : Nat) (st : St), 2 ≤ a →
      (∀ i, i < t → env.fault (st.calls + i) = none) →
      env.fault (st.calls + t) = some e →
      (∀ m, st.calls + t < m → env.fault m = none) →
      retryLoop env child false fid a n 0 [] st =
        (.ok pgs.flatten,
          { st with
              calls := st.calls + (pgs.length + 1),
              sleeps := st.sleeps ++ [(2 : ℚ) ^ n + env.jitter st.sleeps.length] }) := by
  intro a n st ha hpre hft hpost
  obtain ⟨b, rfl⟩ : ∃ b, a = b + 2 := ⟨a - 2, by omega⟩
  rw [retryLoop]
  rw [show (env.pages fid).drop 0 = pgs by simp [hp]]
  rw [pagePass_fault env child e t pgs 0 [] st ht hft hpre]
  simp only [hc, hr, if_true]
  rw [retryLoop]
  rw [show (env.pages fid).drop (0 + t) = pgs.drop t by simp [hp]]
  rw [pagePass_ok env child (pgs.drop t) (0 + t) ([] ++ (pgs.take t).flatten)
    { st with
        calls := st.calls + (t + 1),
        sleeps := st.sleeps ++ [(2 : ℚ) ^ n + env.jitter st.sleeps.length] }
    (List.length_pos.mp (by simp only [List.length_drop]; omega))
    (fun i _ => by
      show env.fault (st.calls + (t + 1) + i) = none
      exact hpost _ (by omega))]
  simp only [Prod.mk.injEq, St.mk.injEq, and_true, true_and, List.nil_append]
  constructor
  · rw [← List.flatten_append, List.take_append_drop]
  · simp only [List.length_drop]
    omega

/-- Unfolding of `_list_items` at depth 0 (the depth guard never fires since
the configured max depth is a natural number). -/
theorem listItems_zero (env : Env) (fid : String) (recursive : Bool) (st : St) :
    listItems env fid 0 recursive st =
      retryLoop env
        (fun cid st1 =>
          if h : 0 < env.maxDepth then listItems env cid (0 + 1) recursive st1
          else (.ok [], st1))
        (recursive && decide (0 < env.maxDepth)) fid env.maxRetries 0 0 []
        { st with listed := st.listed ++ [fid] } := by
  rw [listItems]
  rw [if_neg (by omega)]

/-- A fault-free, single-page, non-recursive listing returns the page in one
call, recording the folder in the listing trace. -/
theorem listItems_clean (env : Env) (fid : String) (pg : List Item) (st : St)
    (hp : env.pages fid = [pg]) (hf : ∀ m, env.fault m = none)
    (hr : 1 ≤ env.maxRetries) :
    listItems env fid 0 false st =
      (.ok pg, { st with calls := st.calls + 1, listed := st.listed ++ [fid] }) := by
  rw [listItems_zero]
  simp only [Bool.false_and]
  rw [retryLoop_k_ok env _ fid pg hp 0 env.maxRetries 0 _ (by omega)
    (fun i hi => absurd hi (by omega)) (hf _)]
  simp

theorem two_pow_ge_one (i : Nat) : (1 : ℚ) ≤ 2 ^ i := by
  induction i with
  | zero => norm_num
  | succ i ih => rw [pow_succ]; nlinarith

/-! ## Retry policy (claim C5) -/

/-- C5 (amended).  For a single-page listing that fails with caught retryable
errors exactly `k < MAX_RETRIES` times and then succeeds, the wrapper returns
the page and performs exactly `k + 1` underlying calls; there is no delay
before attempt 0, and the delay performed after failed attempt `n` (that is,
before attempt `n + 1`, 0-indexed) is `2 ^ n` time units plus the jitter drawn
from `[0, 1)`, so successive delays are strictly increasing. -/
theorem retry_policy_amended (env : Env) (fid : String) (pg : List Item) (k : Nat)
    (st : St) (hp : env.pages fid = [pg]) (hk : k < env.maxRetries)
    (hf : ∀ i, i < k → ∃ e, env.fault (st.calls + i) = some e ∧
      caught e = true ∧ retryable e = true)
    (hsucc : env.fault (st.calls + k) = none)
    (hj : ∀ m, 0 ≤ env.jitter m ∧ env.jitter m < 1) :
    listItems env fid 0 false st =
      (.ok pg,
        { st with
            calls := st.calls + (k + 1),
            sleeps := st.sleeps ++ (List.range k).map
              (fun i => (2 : ℚ) ^ i + env.jitter (st.sleeps.length + i)),
            listed := st.listed ++ [fid] }) ∧
    (∀ i, i + 1 < k →
      (2 : ℚ) ^ i + env.jitter (st.sleeps.length + i) <
        (2 : ℚ) ^ (i + 1) + env.jitter (st.sleeps.length + (i + 1))) := by
  constructor
  · rw [listItems_zero]
    simp only [Bool.false_and]
    rw [retryLoop_k_ok env _ fid pg hp k env.maxRetries 0 _ hk
      (fun i hi => by
        obtain ⟨e, he, hc, hr⟩ := hf i hi
        exact ⟨e, by
          show env.fault (st.calls + i) = some e
          exact he, hc, hr⟩)
      (by
        show env.fault (st.calls + k) = none
        exact hsucc)]
    simp
  · intro i hi
    have h1 := (hj (st.sleeps.length + i)).2
    have h2 := (hj (st.sleeps.length + (i + 1))).1
    have h3 : (1 : ℚ) ≤ 2 ^ i := two_pow_ge_one i
    have h4 : (2 : ℚ) ^ (i + 1) = 2 ^ i * 2 := pow_succ 2 i
    linarith

/-- A folder id used by the concrete counterexample runs. -/
def fidF : String := "F"

/-- Environment for the C5 counterexample: a single empty page, one transient
`SSLError` on the very first call, zero jitter, three allowed attempts. -/
def env5 : Env :=
  { maxDepth := 0, maxRetries := 3, batchSize := 1,
    pages := fun _ => [[]],
    fault := fun m => if m = 0 then some .ssl else none,
    jitter := fun _ => 0, opFail := fun _ => false, newId := fun s => s,
    batchFail := fun _ => none }

/-- C5 counterexample: with `k = 1` (one retryable failure, then success) and
zero jitter, the only delay performed is `2 ^ 0 + 0 = 1` time unit, while the
claim's formula — delay before attempt `n` (0-indexed) is `2 ^ n` plus a
jitter in `[0, 1)` — demands a delay of at least `2` before attempt 1 (and a
delay of at least `1` before attempt 0, where the code sleeps not at all). -/
theorem retry_policy_counterexample :
    (listItems env5 fidF 0 false st0).2.sleeps = [(1 : ℚ)] ∧ ¬ ((2 : ℚ) ≤ 1) := by
  have hrun : listItems env5 fidF 0 false st0 =
      (.ok [],
        { st0 with
            calls := st0.calls + (1 + 1),
            sleeps := st0.sleeps ++ (List.range 1).map
              (fun i => (2 : ℚ) ^ (0 + i) + env5.jitter (st0.sleeps.length + i)),
            listed := st0.listed ++ [fidF] }) := by
    rw [listItems_zero]
    simp only [Bool.false_and]
    rw [retryLoop_k_ok env5 _ fidF [] rfl 1 env5.maxRetries 0 _ (by norm_num [env5])
      (fun i hi => by
        have : i = 0 := by omega
        subst this
        exact ⟨.ssl, by norm_num [env5, st0], rfl, rfl⟩)
      (by norm_num [env5, st0])]
  constructor
  · rw [hrun]
    norm_num [st0, env5, List.range_succ]
  · norm_num

/-- Witness for `retry_policy_amended`: the concrete run of `env5`. -/
theorem retry_policy_witness :
    1 < env5.maxRetries ∧
      (listItems env5 fidF 0 false st0).2.calls = 2 := by
  have h := retry_policy_amended env5 fidF [] 1 st0 rfl (by norm_num [env5])
    (fun i hi => by
      have : i = 0 := by omega
      subst this
      exact ⟨.ssl, by norm_num [env5, st0], rfl, rfl⟩)
    (by norm_num [env5, st0])
    (fun m => by norm_num [env5])
  refine ⟨by norm_num [env5], ?_⟩
  rw [h.1]
  norm_num [st0]

/-! ## Error classification and retry exhaustion (claim C4) -/

/-- C4 (amended).  (1) A caught but non-retryable error (an `HttpError` whose
status is outside `[403, 500, 503]`) stops the loop after its single call with
no further attempts, but it does not propagate itself: the caller receives the
generic `TimeoutError` of the exhaustion path.  (2) An error outside the
caught classes propagates to the caller unchanged after the single call.
(3) Exhausting all `MAX_RETRIES` attempts raises a `TimeoutError` whose
message carries the folder id and the attempt count — but it is a plain
`TimeoutError`, the very class the wrapped operation itself can raise, and
`retryable (.timeout msg) = true` shows an enclosing retry loop treats it as
retryable, so it is not a distinct `RetryExhausted` type. -/
theorem error_classification_amended :
    (∀ (env : Env) (fid : String) (st : St) (e : PyErr),
        caught e = true → retryable e = false → 1 ≤ env.maxRetries →
        env.fault st.calls = some e →
        listItems env fid 0 false st =
          (.error (.timeout (exhaustMsg fid env.maxRetries)),
            { st with calls := st.calls + 1, listed := st.listed ++ [fid] })) ∧
    (∀ (env : Env) (fid : String) (st : St) (e : PyErr),
        caught e = false → 1 ≤ env.maxRetries →
        env.fault st.calls = some e →
        listItems env fid 0 false st =
          (.error e, { st with calls := st.calls + 1, listed := st.listed ++ [fid] })) ∧
    (∀ (env : Env) (fid : String) (st : St),
        (∀ i, i < env.maxRetries → ∃ e, env.fault (st.calls + i) = some e ∧
          caught e = true ∧ retryable e = true) →
        (listItems env fid 0 false st).1 =
          .error (.timeout (exhaustMsg fid env.maxRetries))) ∧
    (∀ msg, caught (.timeout msg) = true ∧ retryable (.timeout msg) = true) := by
  refine ⟨?_, ?_, ?_, fun msg => ⟨rfl, rfl⟩⟩
  · intro env fid st e hc hr hm h0
    rw [listItems_zero]
    simp only [Bool.false_and]
    rw [retryLoop_fatal env _ false fid e hc hr env.maxRetries 0 0 []
      { st with listed := st.listed ++ [fid] } hm
      (by
        show env.fault st.calls = some e
        exact h0)]
  · intro env fid st e hc hm h0
    rw [listItems_zero]
    simp only [Bool.false_and]
    rw [retryLoop_uncaught env _ false fid e hc env.maxRetries 0 0 []
      { st with listed := st.listed ++ [fid] } hm
      (by
        show env.fault st.calls = some e
        exact h0)]
  · intro env fid st hfaults
    rw [listItems_zero]
    simp only [Bool.false_and]
    rw [retryLoop_exhaust env _ false fid env.maxRetries 0 0 []
      { st with listed := st.listed ++ [fid] }
      (fun i hi => by
        obtain ⟨e, he, hc, hr⟩ := hfaults i hi
        exact ⟨e, by
          show env.fault (st.calls + i) = some e
          exact he, hc, hr⟩)]

/-- Environment for the C4 counterexample: the first call raises
`HttpError(status=404)` — not in the retryable set. -/
def env4 : Env :=
  { maxDepth := 0, maxRetries := 3, batchSize := 1,
    pages := fun _ => [[]],
    fault := fun _ => some (.http 404 false),
    jitter := fun _ => 0, opFail := fun _ => false, newId := fun s => s,
    batchFail := fun _ => none }

/-- C4 counterexample: a fatal `HttpError(404)` on the first call makes
`_list_items` stop retrying, but the caller receives
`TimeoutError("Failed to list items ... after 3 attempts")`, not the original
`HttpError` — the fatal error does not propagate, and the failure raised is a
plain `TimeoutError`, not a type distinguishable from the wrapped operation's
own error classes. -/
theorem error_classification_counterexample :
    (listItems env4 fidF 0 false st0).1 =
        .error (.timeout (exhaustMsg fidF 3)) ∧
      (listItems env4 fidF 0 false st0).2.calls = 1 ∧
      PyErr.timeout (exhaustMsg fidF 3) ≠ PyErr.http 404 false := by
  have hrun : listItems env4 fidF 0 false st0 =
      (.error (.timeout (exhaustMsg fidF env4.maxRetries)),
        { st0 with calls := st0.calls + 1, listed := st0.listed ++ [fidF] }) := by
    rw [listItems_zero]
    simp only [Bool.false_and]
    rw [retryLoop_fatal env4 _ false fidF (.http 404 false) rfl rfl env4.maxRetries 0 0 []
      { st0 with listed := st0.listed ++ [fidF] } (by norm_num [env4]) rfl]
  refine ⟨by rw [hrun]; rfl, by rw [hrun]; norm_num [st0], by simp⟩

/-- Witness for `error_classification_amended`: concrete fatal run on `env4`
and a concrete uncaught-error run. -/
theorem error_classification_witness :
    caught (.http 404 false) = true ∧ retryable (.http 404 false) = false ∧
      1 ≤ env4.maxRetries ∧ env4.fault st0.calls = some (.http 404 false) ∧
      listItems env4 fidF 0 false st0 =
        (.error (.timeout (exhaustMsg fidF env4.maxRetries)),
          { st0 with calls := st0.calls + 1, listed := st0.listed ++ [fidF] }) := by
  refine ⟨rfl, rfl, by norm_num [env4], rfl, ?_⟩
  exact error_classification_amended.1 env4 fidF st0 (.http 404 false) rfl rfl
    (by norm_num [env4]) rfl

/-! ## Per-page retry scope of pagination (claim C9) -/

/-- C9 (confirmed).  `items` and `page_token` are initialised before the retry
loop of `_list_items`, so a transient failure while fetching page `t` keeps
the pages already fetched and resumes at page `t`: after one backoff sleep,
the listing returns every page's files exactly once (the concatenation of all
pages), with only the failing page requested twice
(`#pages + 1` calls in total). -/
theorem pagination_retry_scope (env : Env) (fid : String) (pgs : List (List Item))
    (t : Nat) (e : PyErr) (st : St)
    (hp : env.pages fid = pgs) (ht : t < pgs.length)
    (hc : caught e = true) (hr : retryable e = true) (ha : 2 ≤ env.maxRetries)
    (hpre : ∀ i, i < t → env.fault (st.calls + i) = none)
    (hft : env.fault (st.calls + t) = some e)
    (hpost : ∀ m, st.calls + t < m → env.fault m = none) :
    listItems env fid 0 false st =
      (.ok pgs.flatten,
        { st with
            calls := st.calls + (pgs.length + 1),
            sleeps := st.sleeps ++ [(2 : ℚ) ^ 0 + env.jitter st.sleeps.length],
            listed := st.listed ++ [fid] }) := by
  rw [listItems_zero]
  simp only [Bool.false_and]
  rw [retryLoop_midfault_ok env _ fid pgs hp t e ht hc hr env.maxRetries 0
    { st with listed := st.listed ++ [fid] } ha
    (fun i hi => by
      show env.fault (st.calls + i) = none
      exact hpre i hi)
    (by
      show env.fault (st.calls + t) = some e
      exact hft)
    (fun m hm => hpost m (by
      have : ({ st with listed := st.listed ++ [fid] } : St).calls = st.calls := rfl
      omega))]

/-- Environment for the C9 witness: two pages, a transient `SSLError` on the
second fetch (global call index 1). -/
def env9 : Env :=
  { maxDepth := 0, maxRetries := 2, batchSize := 1,
    pages := fun _ => [[⟨"a1", "a1", ""⟩], [⟨"b1", "b1", ""⟩]],
    fault := fun m => if m = 1 then some .ssl else none,
    jitter := fun _ => 0, opFail := fun _ => false, newId := fun s => s,
    batchFail := fun _ => none }

/-- Witness for `pagination_retry_scope`: the concrete two-page run of `env9`,
where page 0 is fetched once, page 1 twice, and both items appear exactly
once in the result. -/
theorem pagination_retry_scope_witness :
    2 ≤ env9.maxRetries ∧
      listItems env9 fidF 0 false st0 =
        (.ok [⟨"a1", "a1", ""⟩, ⟨"b1", "b1", ""⟩],
          { st0 with calls := 3, sleeps := [(1 : ℚ)], listed := [fidF] }) := by
  have h := pagination_retry_scope env9 fidF [[⟨"a1", "a1", ""⟩], [⟨"b1", "b1", ""⟩]]
    1 .ssl st0 rfl (by norm_num) rfl rfl (by norm_num [env9])
    (fun i hi => by
      have : i = 0 := by omega
      subst this
      norm_num [env9, st0])
    (by norm_num [env9, st0])
    (fun m hm => by
      have hm1 : 1 < m := by
        have : st0.calls = 0 := rfl
        omega
      have : ¬ (m = 1) := by omega
      simp [env9, this])
  refine ⟨by norm_num [env9], ?_⟩
  rw [h]
  norm_num [st0, env9, St.mk.injEq]

/-! ## Depth guard and silent truncation (claim C2) -/

/-- The recursion loop over a page's folders when every child listing succeeds
with value `g f` and preserves the depth-event log. -/
theorem recurseFold_ok (child : String → St → Except PyErr (List Item) × St)
    (g : Item → List Item) :
    ∀ (files items : List Item) (st : St),
      (∀ f, f ∈ files → isFolder f = true → ∀ st1 : St, ∃ st2,
        child f.id st1 = (.ok (g f), st2) ∧ st2.depthEvents = st1.depthEvents) →
      ∃ st2, recurseFold child files items st =
          (none, items ++ ((files.filter isFolder).map g).flatten, st2) ∧
        st2.depthEvents = st.depthEvents := by
  intro files
  induction files with
  | nil =>
    intro items st _
    exact ⟨st, by simp [recurseFold], rfl⟩
  | cons f rest ih =>
    intro items st hchild
    by_cases hf : isFolder f = true
    · obtain ⟨st2, hc, hd⟩ := hchild f (by simp) hf st
      obtain ⟨st3, hrec, hd3⟩ := ih (items ++ g f) st2
        (fun f2 h2 hf2 st1 => hchild f2 (by simp [h2]) hf2 st1)
      refine ⟨st3, ?_, by rw [hd3, hd]⟩
      rw [recurseFold]
      simp only [hf, if_true, hc, hrec, List.filter_cons_of_pos hf, List.map_cons,
        List.flatten_cons, List.append_assoc]
    · have hf2 : isFolder f = false := by simpa using hf
      obtain ⟨st3, hrec, hd3⟩ := ih items st
        (fun f2 h2 hf2b st1 => hchild f2 (by simp [h2]) hf2b st1)
      refine ⟨st3, ?_, hd3⟩
      rw [recurseFold]
      simp [hf2, hrec, List.filter_cons]

/-- A fault-free single-page-per-folder recursive listing with `b` descents of
budget left (`b = maxDepth - depth`) returns exactly the truncated pre-order
sequence `listedUpTo` and records no depth-limit event: the recursion guard
`depth < MAX_RECURSION_DEPTH` skips silently instead of entering a call with
`depth > MAX_RECURSION_DEPTH`. -/
theorem listItems_clean_rec (env : Env) (σ : String → List Item)
    (hpages : ∀ g, env.pages g = [σ g]) (hfault : ∀ m, env.fault m = none)
    (hr : 1 ≤ env.maxRetries) :
    ∀ (b : Nat) (fid : String) (depth : Nat) (st : St),
      depth ≤ env.maxDepth → b = env.maxDepth - depth →
      ∃ st2, listItems env fid depth true st =
          (.ok (listedUpTo σ b fid), st2) ∧ st2.depthEvents = st.depthEvents := by
  intro b
  induction b with
  | zero =>
    intro fid depth st hd hb
    rw [listItems, if_neg (by omega)]
    rw [show (true && decide (depth < env.maxDepth)) = false by
      simp only [Bool.true_and, decide_eq_false_iff_not]
      omega]
    rw [retryLoop_k_ok env _ fid (σ fid) (hpages fid) 0 env.maxRetries 0 _ (by omega)
      (fun i hi => absurd hi (by omega)) (hfault _)]
    exact ⟨_, rfl, rfl⟩
  | succ b ih =>
    intro fid depth st hd hb
    have hdm : depth < env.maxDepth := by omega
    rw [listItems, if_neg (by omega)]
    rw [show (true && decide (depth < env.maxDepth)) = true by
      simp only [Bool.true_and, decide_eq_true_eq]
      omega]
    obtain ⟨a, ha⟩ : ∃ a, env.maxRetries = a + 1 := ⟨env.maxRetries - 1, by omega⟩
    rw [ha, retryLoop]
    rw [show (env.pages fid).drop 0 = [σ fid] by simp [hpages]]
    rw [pagePass]
    simp only [hfault, pageRec]
    obtain ⟨st2, hrec, hd2⟩ := recurseFold_ok
      (fun cid st1 =>
        if h : depth < env.maxDepth then listItems env cid (depth + 1) true st1
        else (.ok [], st1))
      (fun f => listedUpTo σ b f.id) (σ fid) ([] ++ σ fid)
      { st with
          listed := st.listed ++ [fid],
          calls := ({ st with listed := st.listed ++ [fid] } : St).calls + 1 }
      (fun f _ hf st1 => by
        show ∃ st2,
            (if h : depth < env.maxDepth then listItems env f.id (depth + 1) true st1
              else (.ok [], st1)) =
              (.ok (listedUpTo σ b f.id), st2) ∧ st2.depthEvents = st1.depthEvents
        rw [dif_pos hdm]
        exact ih f.id (depth + 1) st1 (by omega) (by omega))
    rw [hrec]
    refine ⟨st2, ?_, by rw [hd2]⟩
    rw [listedUpTo]
    simp

/-- Root folder id for concrete trees. -/
def rootId : String := "root"

/-- A concrete folder item with id `A`. -/
def itemA : Item := ⟨"A", "A", folderMime⟩

/-- A concrete file item with id `f2`, child of folder `A`. -/
def itemF2 : Item := ⟨"f2", "f2", "text/plain"⟩

/-- Concrete tree of folder-depth 1: `root` contains folder `A`, which
contains the file `f2` (so with `max_depth = 0` the tree depth is
`max_depth + 1`). -/
def sigma2 : String → List Item :=
  fun s => if s = rootId then [itemA] else if s = "A" then [itemF2] else []

/-- C2 (amended).  A traversal call entered with `depth > max_depth` records a
depth-limit event and returns empty.  But a recursive listing never makes such
a call: the recursion guard `depth < MAX_RECURSION_DEPTH` silently skips
deeper folders, so for any tree the returned sequence is the pre-order
truncation at the ceiling (deepest items excluded) while the number of
depth-limit events recorded is zero — not once per branch hitting the
ceiling. -/
theorem depth_limit_amended :
    (∀ (env : Env) (fid : String) (depth : Nat) (recursive : Bool) (st : St),
        env.maxDepth < depth →
        listItems env fid depth recursive st =
          (.ok [], { st with depthEvents := st.depthEvents ++ [fid] })) ∧
    (∀ (σ : String → List Item) (maxD maxR B : Nat) (fid : String) (st : St),
        1 ≤ maxR →
        ∃ st2, listItems (treeEnv σ maxD maxR B) fid 0 true st =
            (.ok (listedUpTo σ maxD fid), st2) ∧
          st2.depthEvents = st.depthEvents) := by
  constructor
  · intro env fid depth recursive st hd
    rw [listItems, if_pos (by omega)]
  · intro σ maxD maxR B fid st hr
    have h := listItems_clean_rec (treeEnv σ maxD maxR B) σ
      (fun g => rfl) (fun m => rfl) hr maxD fid 0 st (by simp [treeEnv])
      (by simp [treeEnv])
    exact h

/-- C2 counterexample: for `sigma2` (tree depth `max_depth + 1` with
`max_depth = 0`, one branch hitting the ceiling through folder `A`), the
recursive listing excludes the deepest item but records zero depth-limit
events, where the claim demands exactly one. -/
theorem depth_limit_counterexample :
    (listItems (treeEnv sigma2 0 1 1) rootId 0 true st0).1 = .ok [itemA] ∧
      (listItems (treeEnv sigma2 0 1 1) rootId 0 true st0).2.depthEvents = [] := by
  obtain ⟨st2, hrun, hev⟩ := listItems_clean_rec (treeEnv sigma2 0 1 1) sigma2
    (fun g => rfl) (fun m => rfl) (by norm_num [treeEnv]) 0 rootId 0 st0
    (by norm_num [treeEnv]) (by norm_num [treeEnv])
  constructor
  · rw [hrun]
    norm_num [listedUpTo, sigma2]
  · rw [hrun]
    simp only [hev]
    rfl

/-- Witness for `depth_limit_amended`: the guard part at a concrete call with
`depth = 1 > max_depth = 0`, and the truncation part on `sigma2`. -/
theorem depth_limit_witness :
    ((treeEnv sigma2 0 1 1).maxDepth < 1 ∧
      listItems (treeEnv sigma2 0 1 1) rootId 1 true st0 =
        (.ok [], { st0 with depthEvents := st0.depthEvents ++ [rootId] })) ∧
    (1 ≤ 1 ∧
      ∃ st2, listItems (treeEnv sigma2 0 1 1) rootId 0 true st0 =
          (.ok (listedUpTo sigma2 0 rootId), st2) ∧
        st2.depthEvents = st0.depthEvents) := by
  constructor
  · exact ⟨by norm_num [treeEnv],
      depth_limit_amended.1 (treeEnv sigma2 0 1 1) rootId 1 true st0
        (by norm_num [treeEnv])⟩
  · exact ⟨le_rfl, depth_limit_amended.2 sigma2 0 1 1 rootId st0 le_rfl⟩

/-! ## Clean batch execution -/

/-- The folder id map entries produced by a fully successful batch over
`items`: one `source id -> new destination id` binding per folder item. -/
def folderEntries (env : Env) (items : List Item) : List (String × String) :=
  (items.filter isFolder).map (fun f => (f.id, env.newId f.id))

theorem cntAdd_zero_left (c : Cnt) : cntAdd ⟨0, 0⟩ c = c := by
  simp [cntAdd]

theorem cntAdd_assoc (a b c : Cnt) : cntAdd (cntAdd a b) c = cntAdd a (cntAdd b c) := by
  simp [cntAdd]
  omega

theorem sumCnt_nil : sumCnt [] = ⟨0, 0⟩ := rfl

theorem sumCnt_cons (x : Cnt) (l : List Cnt) : sumCnt (x :: l) = cntAdd x (sumCnt l) := by
  simp [sumCnt, cntAdd]

theorem sumCnt_append (a b : List Cnt) :
    sumCnt (a ++ b) = cntAdd (sumCnt a) (sumCnt b) := by
  simp [sumCnt, cntAdd]

/-- Batch callbacks over a chunk with every per-item operation succeeding:
counters gain the chunk's file/folder counts, the id map gains one entry per
folder, and every item id is logged as copied. -/
theorem runItems_clean (env : Env) (hop : ∀ s, env.opFail s = false) :
    ∀ (items : List Item) (cnt : Cnt) (m : List (String × String)) (st : St),
      runItems env items cnt m st =
        (cntAdd cnt ⟨countFiles items, countFolders items⟩,
          m ++ folderEntries env items,
          { st with copiedIds := st.copiedIds ++ items.map Item.id }) := by
  intro items
  induction items with
  | nil =>
    intro cnt m st
    simp [runItems, folderEntries, countFiles, countFolders, cntAdd]
  | cons it rest ih =>
    intro cnt m st
    rw [runItems]
    by_cases hf : isFolder it = true
    · simp only [handleItem, hop it.id, Bool.false_eq_true, if_false, hf, if_true]
      rw [ih]
      simp only [Prod.mk.injEq, St.mk.injEq, and_true, true_and, folderEntries,
        countFiles, countFolders, List.filter_cons, hf, cntAdd]
      refine ⟨?_, ?_, ?_⟩
      · simp [hf]
        omega
      · simp [hf, List.append_assoc]
      · simp
    · have hf2 : isFolder it = false := by simpa using hf
      simp only [handleItem, hop it.id, Bool.false_eq_true, if_false, hf2, if_true]
      rw [ih]
      simp only [Prod.mk.injEq, St.mk.injEq, and_true, true_and, folderEntries,
        countFiles, countFolders, List.filter_cons, hf2, cntAdd]
      refine ⟨?_, ?_, ?_⟩
      · simp [hf2]
        omega
      · simp [hf2]
      · simp

theorem countFiles_append (a b : List Item) :
    countFiles (a ++ b) = countFiles a + countFiles b := by
  simp [countFiles, List.filter_append]

theorem countFolders_append (a b : List Item) :
    countFolders (a ++ b) = countFolders a + countFolders b := by
  simp [countFolders, List.filter_append]

theorem folderEntries_append (env : Env) (a b : List Item) :
    folderEntries env (a ++ b) = folderEntries env a ++ folderEntries env b := by
  simp [folderEntries, List.filter_append]

/-- Sequential execution of every submitted chunk when no batch-level fault
and no per-item fault occurs: all outcomes are `none`, and the effect is that
of running the callbacks over the concatenation of the chunks, with one batch
execution counted per chunk. -/
theorem runChunks_clean (env : Env) (hb : ∀ m, env.batchFail m = none)
    (hop : ∀ s, env.opFail s = false) :
    ∀ (chs : List (List Item)) (cnt : Cnt) (m : List (String × String)) (st : St),
      runChunks env chs cnt m st =
        (chs.map (fun _ => none),
          cntAdd cnt ⟨countFiles chs.flatten, countFolders chs.flatten⟩,
          m ++ folderEntries env chs.flatten,
          { st with
              copiedIds := st.copiedIds ++ chs.flatten.map Item.id,
              batches := st.batches + chs.length }) := by
  intro chs
  induction chs with
  | nil =>
    intro cnt m st
    simp [runChunks, folderEntries, countFiles, countFolders, cntAdd]
  | cons ch rest ih =>
    intro cnt m st
    rw [runChunks]
    simp only [runChunk, hb, runItems_clean env hop]
    rw [ih]
    simp only [List.map_cons, List.flatten_cons, countFiles_append, countFolders_append,
      folderEntries_append, cntAdd, List.map_append, List.length_cons, List.append_assoc,
      Prod.mk.injEq, St.mk.injEq, Cnt.mk.injEq, and_true, true_and]
    omega

theorem dfsLoop1_none (l : List (List Item)) :
    ∀ st : St, dfsLoop1 (l.map (fun _ => none)) st = (none, st) := by
  induction l with
  | nil => intro st; simp [dfsLoop1]
  | cons x rest ih =>
    intro st
    rw [List.map_cons, dfsLoop1]
    exact ih st

theorem firstFailure_none (l : List (List Item)) :
    firstFailure (l.map (fun _ => none)) = none := by
  induction l with
  | nil => simp [firstFailure]
  | cons x rest ih =>
    rw [List.map_cons, firstFailure]
    exact ih

theorem dfsChunks_flatten (B : Nat) (hB : 1 ≤ B) (l : List Item) :
    (dfsChunks B l).flatten = l := by
  unfold dfsChunks
  split
  · exact chunkList_join B hB l
  · simp

/-! ## Batch-level rate limit handling (claim C7) -/

/-- Destination folder id for concrete runs. -/
def dstId : String := "dst"

/-- A concrete file item at the root. -/
def itemG : Item := ⟨"g", "g", "text/plain"⟩

/-- Environment for the C7 run: the root folder holds one file, and the only
batch execution raises a rate-limited `HttpError(403)`. -/
def env7 : Env :=
  { maxDepth := 0, maxRetries := 3, batchSize := 1,
    pages := fun _ => [[itemG]],
    fault := fun _ => none,
    jitter := fun _ => 0, opFail := fun _ => false, newId := fun s => s,
    batchFail := fun m => if m = 0 then some (.http 403 true) else none }

/-- C7 run: when the chunk's batch execution fails with a rate-limited
`HttpError`, `_copy_items` performs the fixed one-second sleep
(`fixedSleeps = 1`) but executes the batch exactly once (`batches = 1`) — the
chunk is never re-submitted — and the second completion-check loop
(`for future in futures: future.result()`) re-raises the rate-limit error, so
the whole call aborts with it instead of retrying the batch. -/
theorem batch_rate_limit_no_retry :
    copyItems env7 rootId dstId 0 true st0 =
      (.error (.http 403 true),
        { st0 with calls := 1, listed := [rootId], batches := 1, fixedSleeps := 1 }) := by
  rw [copyItems]
  rw [if_neg (by norm_num [env7])]
  rw [listItems_clean env7 rootId [itemG] st0 rfl (fun m => rfl) (by norm_num [env7])]
  simp only []
  rw [show dfsChunks env7.batchSize [itemG] = [[itemG]] by norm_num [dfsChunks, env7]]
  simp [runChunks, runChunk, env7, st0, dfsLoop1, firstFailure]

/-! ## Clean depth-first replication -/

/-- The id map built by a fully successful batch maps every folder of the
input to its fresh destination id (the value is determined by the key, so no
distinctness of ids is needed). -/
theorem lookup_folderEntries (env : Env) :
    ∀ (items : List Item) (f : Item), f ∈ items → isFolder f = true →
      lookupId (folderEntries env items) f.id = some (env.newId f.id) := by
  intro items
  induction items with
  | nil => intro f hf; simp at hf
  | cons it rest ih =>
    intro f hf hfold
    by_cases hit : isFolder it = true
    · rw [show folderEntries env (it :: rest) =
          (it.id, env.newId it.id) :: folderEntries env rest by
        simp [folderEntries, List.filter_cons, hit]]
      rw [lookupId]
      by_cases heq : it.id == f.id
      · have : it.id = f.id := by simpa using heq
        simp [heq, this]
      · have hne : it.id ≠ f.id := by simpa using heq
        simp only [heq, Bool.false_eq_true, if_false]
        rcases List.mem_cons.mp hf with h | h
        · exact absurd (by rw [h]) hne
        · exact ih f h hfold
    · have hit2 : isFolder it = false := by simpa using hit
      rw [show folderEntries env (it :: rest) = folderEntries env rest by
        simp [folderEntries, List.filter_cons, hit2]]
      rcases List.mem_cons.mp hf with h | h
      · rw [h] at hfold
        exact absurd hfold hit
      · exact ih f h hfold

theorem newId_ne_empty (s : String) : ("c-" ++ s) ≠ "" := by
  intro h
  have h2 := congrArg String.length h
  rw [String.length_append] at h2
  have e1 : ("c-" : String).length = 2 := rfl
  have e2 : ("" : String).length = 0 := rfl
  omega

/-- The recursion loop of `_copy_items` over a batch's items when every folder
got an id-map entry with a non-empty fresh id and every nested copy succeeds
with counters `c`: the final counters are the batch counters plus the sum of
the nested counters, in listing order. -/
theorem dfsRecurse_ok (env : Env) (next : String → String → St → Except PyErr Cnt × St)
    (c : String → Cnt) (hne : ∀ s, env.newId s ≠ "") :
    ∀ (items : List Item) (m : List (String × String)) (cnt : Cnt) (st : St),
      (∀ f, f ∈ items → isFolder f = true →
        lookupId m f.id = some (env.newId f.id)) →
      (∀ f, f ∈ items → isFolder f = true → ∀ st1 : St, ∃ st2,
        next f.id (env.newId f.id) st1 = (.ok (c f.id), st2)) →
      ∃ st2, dfsRecurse next m items cnt st =
        (.ok (cntAdd cnt (sumCnt ((items.filter isFolder).map (fun f => c f.id)))), st2) := by
  intro items
  induction items with
  | nil =>
    intro m cnt st _ _
    exact ⟨st, by simp [dfsRecurse, sumCnt, cntAdd]⟩
  | cons it rest ih =>
    intro m cnt st hmap hnext
    by_cases hit : isFolder it = true
    · obtain ⟨st2, hrun⟩ := hnext it (by simp) hit st
      obtain ⟨st3, hrec⟩ := ih m (cntAdd cnt (c it.id)) st2
        (fun f hf hfo => hmap f (by simp [hf]) hfo)
        (fun f hf hfo st1 => hnext f (by simp [hf]) hfo st1)
      refine ⟨st3, ?_⟩
      rw [dfsRecurse]
      simp only [hit, if_true, hmap it (by simp) hit, hne it.id, if_neg (hne it.id), hrun, hrec]
      rw [List.filter_cons_of_pos hit, List.map_cons, sumCnt_cons, cntAdd_assoc]
      simp
    · have hit2 : isFolder it = false := by simpa using hit
      obtain ⟨st3, hrec⟩ := ih m cnt st
        (fun f hf hfo => hmap f (by simp [hf]) hfo)
        (fun f hf hfo st1 => hnext f (by simp [hf]) hfo st1)
      refine ⟨st3, ?_⟩
      rw [dfsRecurse]
      simp only [hit2, Bool.false_eq_true, if_false, hrec]
      rw [List.filter_cons_of_neg (by simp [hit2])]

/-- `_copy_items` on a well-behaved remote: entered at `depth` with budget
`b = maxD - depth`, it copies exactly the `dfsCnt`-truncated tree under the
source folder. -/
theorem copyItems_clean (σ : String → List Item) (maxD maxR B : Nat)
    (hr : 1 ≤ maxR) (hB : 1 ≤ B) :
    ∀ (b : Nat) (src dest : String) (depth : Nat) (st : St),
      depth ≤ maxD → b = maxD - depth →
      ∃ st2, copyItems (treeEnv σ maxD maxR B) src dest depth true st =
        (.ok (dfsCnt σ b src), st2) := by
  intro b
  induction b with
  | zero =>
    intro src dest depth st hd hb
    have h1 : listItems (treeEnv σ maxD maxR B) src 0 false st =
        (.ok (σ src), { st with calls := st.calls + 1, listed := st.listed ++ [src] }) :=
      listItems_clean _ _ _ _ rfl (fun m => rfl) hr
    have h2 := runChunks_clean (treeEnv σ maxD maxR B) (fun m => rfl) (fun s => rfl)
      (dfsChunks B (σ src)) ⟨0, 0⟩ []
      { st with calls := st.calls + 1, listed := st.listed ++ [src] }
    rw [copyItems, if_neg (show ¬ depth > (treeEnv σ maxD maxR B).maxDepth from by
      simp [treeEnv]; omega)]
    simp only [h1]
    simp only [show (treeEnv σ maxD maxR B).batchSize = B from rfl]
    simp only [h2, dfsLoop1_none, firstFailure_none]
    rw [if_neg (show ¬ (true && decide (depth < (treeEnv σ maxD maxR B).maxDepth)) = true
      from by simp [treeEnv]; omega)]
    simp only [dfsChunks_flatten B hB, cntAdd_zero_left]
    exact ⟨_, rfl⟩
  | succ b ih =>
    intro src dest depth st hd hb
    have hdm : depth < (treeEnv σ maxD maxR B).maxDepth := by simp only [treeEnv]; omega
    have h1 : listItems (treeEnv σ maxD maxR B) src 0 false st =
        (.ok (σ src), { st with calls := st.calls + 1, listed := st.listed ++ [src] }) :=
      listItems_clean _ _ _ _ rfl (fun m => rfl) hr
    have h2 := runChunks_clean (treeEnv σ maxD maxR B) (fun m => rfl) (fun s => rfl)
      (dfsChunks B (σ src)) ⟨0, 0⟩ []
      { st with calls := st.calls + 1, listed := st.listed ++ [src] }
    rw [copyItems, if_neg (show ¬ depth > (treeEnv σ maxD maxR B).maxDepth from by
      simp [treeEnv]; omega)]
    simp only [h1]
    simp only [show (treeEnv σ maxD maxR B).batchSize = B from rfl]
    simp only [h2, dfsLoop1_none, firstFailure_none]
    rw [if_pos (show (true && decide (depth < (treeEnv σ maxD maxR B).maxDepth)) = true
      from by simp [treeEnv]; omega)]
    simp only [dfsChunks_flatten B hB, cntAdd_zero_left, List.nil_append]
    rw [show dfsCnt σ (b + 1) src =
      cntAdd ⟨countFiles (σ src), countFolders (σ src)⟩
        (sumCnt (((σ src).filter isFolder).map (fun f => dfsCnt σ b f.id))) from rfl]
    exact dfsRecurse_ok (treeEnv σ maxD maxR B)
      (fun cid nid st3 =>
        if h : depth < (treeEnv σ maxD maxR B).maxDepth then
          copyItems (treeEnv σ maxD maxR B) cid nid (depth + 1) true st3
        else (.ok ⟨0, 0⟩, st3))
      (fun cid => dfsCnt σ b cid)
      (fun s => newId_ne_empty s) (σ src) _ _ _
      (fun f hf hfo => lookup_folderEntries _ (σ src) f hf hfo)
      (fun f hf hfo st4 => by
        show ∃ st5,
            (if h : depth < (treeEnv σ maxD maxR B).maxDepth then
              copyItems (treeEnv σ maxD maxR B) f.id
                ((treeEnv σ maxD maxR B).newId f.id) (depth + 1) true st4
            else (.ok ⟨0, 0⟩, st4)) = (.ok (dfsCnt σ b f.id), st5)
        rw [dif_pos hdm]
        exact ih f.id _ (depth + 1) st4 (by simp only [treeEnv] at hdm; omega)
          (by simp only [treeEnv] at hdm ⊢; omega))

/-! ## Clean breadth-first replication -/

theorem cntAdd_zero_right (c : Cnt) : cntAdd c ⟨0, 0⟩ = c := by
  simp [cntAdd]

theorem dfsCnt_zero (σ : String → List Item) (fid : String) :
    dfsCnt σ 0 fid = levelCnt σ fid := rfl

theorem dfsCnt_succ (σ : String → List Item) (d : Nat) (fid : String) :
    dfsCnt σ (d + 1) fid =
      cntAdd (levelCnt σ fid)
        (sumCnt (((σ fid).filter isFolder).map (fun f => dfsCnt σ d f.id))) := rfl

theorem sumCnt_flatten {α : Type} (h : α → Cnt) :
    ∀ ls : List (List α),
      sumCnt (ls.flatten.map h) = sumCnt (ls.map (fun l => sumCnt (l.map h))) := by
  intro ls
  induction ls with
  | nil => rfl
  | cons l rest ih =>
    simp only [List.flatten_cons, List.map_append, sumCnt_append, List.map_cons,
      sumCnt_cons, ih]

theorem sumCnt_map_cntAdd {α : Type} (f g : α → Cnt) :
    ∀ l : List α,
      sumCnt (l.map (fun x => cntAdd (f x) (g x))) =
        cntAdd (sumCnt (l.map f)) (sumCnt (l.map g)) := by
  intro l
  induction l with
  | nil => rfl
  | cons x rest ih =>
    simp only [List.map_cons, sumCnt_cons, ih]
    simp [cntAdd]
    omega

theorem folderDepthLe_child (σ : String → List Item) (s : String) (d : Nat) (f : Item)
    (h : folderDepthLe σ s (d + 1) = true) (hf : f ∈ σ s) (hfo : isFolder f = true) :
    folderDepthLe σ f.id d = true := by
  rw [folderDepthLe] at h
  have h2 := (List.all_eq_true.mp h) f hf
  simp [hfo] at h2
  exact h2

theorem folderDepthLe_zero_filter (σ : String → List Item) (s : String)
    (h : folderDepthLe σ s 0 = true) : (σ s).filter isFolder = [] := by
  rw [folderDepthLe] at h
  rw [List.filter_eq_nil]
  intro f hf
  have h2 := (List.all_eq_true.mp h) f hf
  simp at h2
  simp [h2]

/-- One clean BFS level: every pair's source is listed, its children's
batches all succeed, counters gain each pair's direct-children counts, and
the level's folder id map is the concatenation of each pair's folder
entries, in order. -/
theorem bfsLevelGo_clean (σ : String → List Item) (maxD maxR B : Nat)
    (hr : 1 ≤ maxR) (hB : 1 ≤ B) :
    ∀ (q : List (String × String)) (cnt : Cnt) (m : List (String × String)) (st : St),
      ∃ st2, bfsLevelGo (treeEnv σ maxD maxR B) q cnt m st =
        (none, cntAdd cnt (sumCnt (q.map (fun p => levelCnt σ p.1))),
          m ++ (q.map (fun p => folderEntries (treeEnv σ maxD maxR B) (σ p.1))).flatten,
          st2) := by
  intro q
  induction q with
  | nil =>
    intro cnt m st
    exact ⟨st, by simp [bfsLevelGo, sumCnt_nil, cntAdd_zero_right]⟩
  | cons p rest ih =>
    intro cnt m st
    obtain ⟨src, dest⟩ := p
    have h1 : listItems (treeEnv σ maxD maxR B) src 0 false st =
        (.ok (σ src), { st with calls := st.calls + 1, listed := st.listed ++ [src] }) :=
      listItems_clean _ _ _ _ rfl (fun m => rfl) hr
    have h2 := runChunks_clean (treeEnv σ maxD maxR B) (fun m => rfl) (fun s => rfl)
      (chunkList B (σ src)) cnt m
      { st with calls := st.calls + 1, listed := st.listed ++ [src] }
    rw [bfsLevelGo]
    simp only [h1]
    simp only [show (treeEnv σ maxD maxR B).batchSize = B from rfl]
    simp only [h2, chunkList_join B hB]
    simp only [List.map_cons, sumCnt_cons, List.flatten_cons, levelCnt,
      ← cntAdd_assoc, ← List.append_assoc]
    exact ih _ _ _

theorem flatten_nil_of_all_nil {α : Type} :
    ∀ L : List (List α), (∀ l, l ∈ L → l = []) → L.flatten = [] := by
  intro L
  induction L with
  | nil => intro _; rfl
  | cons l rest ih =>
    intro h
    rw [List.flatten_cons, h l (by simp), ih (fun l2 h2 => h l2 (by simp [h2]))]
    rfl

theorem mem_bfs_children (env : Env) (σ : String → List Item) :
    ∀ (q : List (String × String)) (p2 : String × String),
      p2 ∈ (q.map (fun p => folderEntries env (σ p.1))).flatten →
      ∃ p, p ∈ q ∧ ∃ f, f ∈ σ p.1 ∧ isFolder f = true ∧ p2 = (f.id, env.newId f.id) := by
  intro q p2 h
  obtain ⟨l, hl, hp2⟩ := List.mem_flatten.mp h
  obtain ⟨p, hp, rfl⟩ := List.mem_map.mp hl
  rw [folderEntries] at hp2
  obtain ⟨f, hf, rfl⟩ := List.mem_map.mp hp2
  exact ⟨p, hp, f, (List.mem_filter.mp hf).1, (List.mem_filter.mp hf).2, rfl⟩

theorem bfs_children_sum (env : Env) (σ : String → List Item) (d : Nat)
    (q : List (String × String)) :
    sumCnt (((q.map (fun p => folderEntries env (σ p.1))).flatten).map
        (fun p2 => dfsCnt σ d p2.1)) =
      sumCnt (q.map (fun p =>
        sumCnt (((σ p.1).filter isFolder).map (fun f => dfsCnt σ d f.id)))) := by
  rw [sumCnt_flatten]
  congr 1
  rw [List.map_map]
  refine List.map_congr_left (fun p _ => ?_)
  simp only [Function.comp_apply, folderEntries, List.map_map]
  rfl

theorem sumCnt_dfsCnt_succ (σ : String → List Item) (d : Nat) :
    ∀ q : List (String × String),
      sumCnt (q.map (fun p => dfsCnt σ (d + 1) p.1)) =
        cntAdd (sumCnt (q.map (fun p => levelCnt σ p.1)))
          (sumCnt (q.map (fun p =>
            sumCnt (((σ p.1).filter isFolder).map (fun f => dfsCnt σ d f.id))))) := by
  intro q
  induction q with
  | nil => rfl
  | cons p q ih =>
    simp only [List.map_cons, sumCnt_cons]
    rw [ih, dfsCnt_succ]
    simp [cntAdd]
    omega

/-- The clean BFS loop: if every queued source's folder chains are bounded by
`D` and at least `D + 1` levels of fuel remain, the loop terminates with the
counters of the full trees under the queued sources. -/
theorem bfsLoop_clean (σ : String → List Item) (maxD maxR B : Nat)
    (hr : 1 ≤ maxR) (hB : 1 ≤ B) :
    ∀ (D : Nat) (q : List (String × String)) (fuel : Nat) (cnt : Cnt) (st : St),
      (∀ p, p ∈ q → folderDepthLe σ p.1 D = true) → D + 1 ≤ fuel →
      ∃ st2, bfsLoop (treeEnv σ maxD maxR B) fuel q cnt st =
        (some (.ok (cntAdd cnt (sumCnt (q.map (fun p => dfsCnt σ D p.1))))), st2) := by
  intro D
  induction D with
  | zero =>
    intro q fuel cnt st hq hfuel
    cases q with
    | nil => exact ⟨st, by simp [bfsLoop, sumCnt_nil, cntAdd_zero_right]⟩
    | cons p q2 =>
      obtain ⟨f1, rfl⟩ : ∃ f1, fuel = f1 + 1 := ⟨fuel - 1, by omega⟩
      rw [bfsLoop]
      obtain ⟨st2, hlev⟩ := bfsLevelGo_clean σ maxD maxR B hr hB (p :: q2) cnt [] st
      simp only [hlev, List.nil_append]
      have hnil : ((p :: q2).map
          (fun pp => folderEntries (treeEnv σ maxD maxR B) (σ pp.1))).flatten = [] := by
        apply flatten_nil_of_all_nil
        intro l hl
        obtain ⟨pp, hpp, rfl⟩ := List.mem_map.mp hl
        rw [folderEntries, folderDepthLe_zero_filter σ pp.1 (hq pp hpp)]
        rfl
      rw [hnil]
      refine ⟨st2, ?_⟩
      rw [show ∀ (c : Cnt) (s : St), bfsLoop (treeEnv σ maxD maxR B) f1 [] c s =
        (some (.ok c), s) from fun c s => by cases f1 <;> rfl]
      simp only [dfsCnt_zero]
  | succ d ih =>
    intro q fuel cnt st hq hfuel
    cases q with
    | nil => exact ⟨st, by simp [bfsLoop, sumCnt_nil, cntAdd_zero_right]⟩
    | cons p q2 =>
      obtain ⟨f1, rfl⟩ : ∃ f1, fuel = f1 + 1 := ⟨fuel - 1, by omega⟩
      rw [bfsLoop]
      obtain ⟨st2, hlev⟩ := bfsLevelGo_clean σ maxD maxR B hr hB (p :: q2) cnt [] st
      simp only [hlev, List.nil_append]
      obtain ⟨st3, h3⟩ := ih
        (((p :: q2).map (fun pp => folderEntries (treeEnv σ maxD maxR B) (σ pp.1))).flatten)
        f1
        (cntAdd cnt (sumCnt ((p :: q2).map (fun pp => levelCnt σ pp.1))))
        st2
        (fun p2 hp2 => by
          obtain ⟨pp, hpp, f, hf, hfo, rfl⟩ :=
            mem_bfs_children (treeEnv σ maxD maxR B) σ (p :: q2) p2 hp2
          exact folderDepthLe_child σ pp.1 d f (hq pp hpp) hf hfo)
        (by omega)
      refine ⟨st3, ?_⟩
      rw [h3, bfs_children_sum (treeEnv σ maxD maxR B) σ d (p :: q2)]
      rw [sumCnt_dfsCnt_succ σ d (p :: q2), ← cntAdd_assoc]

/-! ## DFS/BFS counter equivalence (claim C1) -/

/-- C1 (confirmed).  On a well-behaved remote (every listing succeeds in one
page, every create/copy succeeds) and a source tree whose folder chains are
bounded by the configured max depth, the depth-first replication
(`_copy_items` with `recursive=True`) and the breadth-first replication
(`_copy_items_bfs`, given enough levels of fuel) both return exactly the
counters of the full tree, `dfsCnt σ maxD root` — identical
`copied_file_count` and `copied_folder_count`, whatever the order of
operations. -/
theorem dfs_bfs_equivalence (σ : String → List Item) (maxD maxR B fuel : Nat)
    (root dest : String) (st st' : St)
    (hr : 1 ≤ maxR) (hB : 1 ≤ B)
    (hdepth : folderDepthLe σ root maxD = true)
    (hfuel : maxD + 1 ≤ fuel) :
    (copyItems (treeEnv σ maxD maxR B) root dest 0 true st).1 =
        .ok (dfsCnt σ maxD root) ∧
      (copyItemsBfs (treeEnv σ maxD maxR B) fuel root dest st').1 =
        some (.ok (dfsCnt σ maxD root)) := by
  constructor
  · obtain ⟨st2, h⟩ := copyItems_clean σ maxD maxR B hr hB maxD root dest 0 st
      (by omega) (by omega)
    rw [h]
  · obtain ⟨st3, h2⟩ := bfsLoop_clean σ maxD maxR B hr hB maxD [(root, dest)] fuel
      ⟨0, 0⟩ st'
      (fun p hp => by
        have : p = (root, dest) := by simpa using hp
        rw [this]
        exact hdepth)
      hfuel
    rw [show copyItemsBfs (treeEnv σ maxD maxR B) fuel root dest st' =
      bfsLoop (treeEnv σ maxD maxR B) fuel [(root, dest)] ⟨0, 0⟩ st' from rfl]
    rw [h2]
    simp [sumCnt, cntAdd]

/-- Concrete tree for the C1 witness: the root holds file `g` and folder `A`;
`A` holds file `f2`. -/
def sigmaW : String → List Item :=
  fun s => if s = rootId then [itemG, itemA] else if s = "A" then [itemF2] else []

/-- Witness for `dfs_bfs_equivalence`: on the concrete two-level tree both
replication modes report 2 files and 1 folder. -/
theorem dfs_bfs_equivalence_witness :
    folderDepthLe sigmaW rootId 1 = true ∧
      (copyItems (treeEnv sigmaW 1 1 1) rootId dstId 0 true st0).1 =
        .ok ⟨2, 1⟩ ∧
      (copyItemsBfs (treeEnv sigmaW 1 1 1) 2 rootId dstId st0).1 =
        some (.ok ⟨2, 1⟩) := by
  have h := dfs_bfs_equivalence sigmaW 1 1 1 2 rootId dstId st0 st0 le_rfl le_rfl
    (by decide) (by omega)
  refine ⟨by decide, ?_, ?_⟩
  · rw [h.1]
    rw [show dfsCnt sigmaW 1 rootId = (⟨2, 1⟩ : Cnt) from by decide]
  · rw [h.2]
    rw [show dfsCnt sigmaW 1 rootId = (⟨2, 1⟩ : Cnt) from by decide]

/-! ## The breadth-first path ignores the max-depth setting (claim C3) -/

theorem pagePass_maxDepth (env : Env) (md md' : Nat)
    (c c' : String → St → Except PyErr (List Item) × St) :
    ∀ (rest : List (List Item)) (idx : Nat) (items : List Item) (st : St),
      pagePass { env with maxDepth := md } c false rest idx items st =
        pagePass { env with maxDepth := md' } c' false rest idx items st := by
  intro rest
  induction rest with
  | nil =>
    intro idx items st
    cases h : env.fault st.calls with
    | some e => simp [pagePass, h]
    | none => simp [pagePass, h]
  | cons pg rest ih =>
    intro idx items st
    cases h : env.fault st.calls with
    | some e => simp [pagePass, h]
    | none =>
      cases rest with
      | nil => simp [pagePass, h, pageRec]
      | cons pg2 rest2 =>
        rw [pagePass, pagePass]
        simp only [h, pageRec]
        exact ih (idx + 1) (items ++ pg) { st with calls := st.calls + 1 }

theorem retryLoop_maxDepth (env : Env) (md md' : Nat)
    (c c' : String → St → Except PyErr (List Item) × St) (fid : String) :
    ∀ (a n idx : Nat) (items : List Item) (st : St),
      retryLoop { env with maxDepth := md } c false fid a n idx items st =
        retryLoop { env with maxDepth := md' } c' false fid a n idx items st := by
  intro a
  induction a with
  | zero => intro n idx items st; rfl
  | succ a ih =>
    intro n idx items st
    rw [retryLoop, retryLoop]
    have hpp := pagePass_maxDepth env md md' c c'
      ((env.pages fid).drop idx) idx items st
    rw [show ({ env with maxDepth := md } : Env).pages = env.pages from rfl,
      show ({ env with maxDepth := md' } : Env).pages = env.pages from rfl,
      show ({ env with maxDepth := md } : Env).maxRetries = env.maxRetries from rfl,
      show ({ env with maxDepth := md' } : Env).maxRetries = env.maxRetries from rfl]
    rw [hpp]
    rcases hps : pagePass { env with maxDepth := md' } c' false
      ((env.pages fid).drop idx) idx items st with ⟨out, st1⟩
    cases out with
    | done its => rfl
    | fail e its idx1 =>
      by_cases hc : caught e = true
      · by_cases hrr : retryable e = true
        · simp only [hc, hrr, if_true]
          exact ih (n + 1) idx1 its _
        · simp only [hc, hrr, if_true]
          simp [hrr]
      · simp [hc]

theorem listItems_maxDepth (env : Env) (md md' : Nat) (fid : String) (st : St) :
    listItems { env with maxDepth := md } fid 0 false st =
      listItems { env with maxDepth := md' } fid 0 false st := by
  rw [listItems_zero, listItems_zero]
  simp only [Bool.false_and]
  rw [show ({ env with maxDepth := md } : Env).maxRetries = env.maxRetries from rfl,
    show ({ env with maxDepth := md' } : Env).maxRetries = env.maxRetries from rfl]
  exact retryLoop_maxDepth env md md' _ _ fid env.maxRetries 0 0 [] _

theorem runItems_maxDepth (env : Env) (md md' : Nat) :
    ∀ (items : List Item) (cnt : Cnt) (m : List (String × String)) (st : St),
      runItems { env with maxDepth := md } items cnt m st =
        runItems { env with maxDepth := md' } items cnt m st := by
  intro items
  have hh : ∀ (it : Item) (cnt : Cnt) (m : List (String × String)) (st : St),
      handleItem { env with maxDepth := md } it cnt m st =
        handleItem { env with maxDepth := md' } it cnt m st := fun _ _ _ _ => rfl
  induction items with
  | nil => intro cnt m st; rfl
  | cons it rest ih =>
    intro cnt m st
    rw [runItems, runItems, hh]
    exact ih _ _ _

theorem runChunks_maxDepth (env : Env) (md md' : Nat) :
    ∀ (chs : List (List Item)) (cnt : Cnt) (m : List (String × String)) (st : St),
      runChunks { env with maxDepth := md } chs cnt m st =
        runChunks { env with maxDepth := md' } chs cnt m st := by
  intro chs
  induction chs with
  | nil => intro cnt m st; rfl
  | cons ch rest ih =>
    intro cnt m st
    rw [runChunks, runChunks]
    have hc : runChunk { env with maxDepth := md } ch cnt m st =
        runChunk { env with maxDepth := md' } ch cnt m st := by
      rw [runChunk, runChunk]
      cases h : env.batchFail st.batches with
      | some e => rfl
      | none =>
        simp only [show ({ env with maxDepth := md } : Env).batchFail = env.batchFail
          from rfl, show ({ env with maxDepth := md' } : Env).batchFail = env.batchFail
          from rfl, h]
        rw [runItems_maxDepth env md md']
    rw [hc, ih]

theorem bfsLevelGo_maxDepth (env : Env) (md md' : Nat) :
    ∀ (q : List (String × String)) (cnt : Cnt) (m : List (String × String)) (st : St),
      bfsLevelGo { env with maxDepth := md } q cnt m st =
        bfsLevelGo { env with maxDepth := md' } q cnt m st := by
  intro q
  induction q with
  | nil => intro cnt m st; rfl
  | cons p rest ih =>
    intro cnt m st
    obtain ⟨src, dest⟩ := p
    rw [bfsLevelGo, bfsLevelGo, listItems_maxDepth env md md' src st]
    rcases hl : listItems { env with maxDepth := md' } src 0 false st with ⟨out, st1⟩
    cases out with
    | error e => rfl
    | ok items =>
      simp only []
      rw [show ({ env with maxDepth := md } : Env).batchSize = env.batchSize from rfl,
        show ({ env with maxDepth := md' } : Env).batchSize = env.batchSize from rfl,
        runChunks_maxDepth env md md']
      rcases runChunks { env with maxDepth := md' } (chunkList env.batchSize items)
        cnt m st1 with ⟨outs, cnt1, m1, st2⟩
      exact ih cnt1 m1 st2

theorem bfsLoop_maxDepth (env : Env) (md md' : Nat) :
    ∀ (fuel : Nat) (q : List (String × String)) (cnt : Cnt) (st : St),
      bfsLoop { env with maxDepth := md } fuel q cnt st =
        bfsLoop { env with maxDepth := md' } fuel q cnt st := by
  intro fuel
  induction fuel with
  | zero =>
    intro q cnt st
    cases q with
    | nil => rfl
    | cons p q2 => rfl
  | succ fuel ih =>
    intro q cnt st
    cases q with
    | nil => rfl
    | cons p q2 =>
      rw [bfsLoop, bfsLoop, bfsLevelGo_maxDepth env md md']
      rcases bfsLevelGo { env with maxDepth := md' } (p :: q2) cnt [] st with
        ⟨err, cnt1, m1, st1⟩
      cases err with
      | some e => rfl
      | none => exact ih m1 cnt1 st1

/-- C3 (amended).  `_copy_items_bfs` does not honor the max-depth ceiling: it
performs no depth accounting at all.  Every folder it dequeues is listed with
`depth = 0`, so the listing depth guard never fires, branches are expanded
until a level creates no new folders, and the whole run is invariant under the
configured `MAX_RECURSION_DEPTH`. -/
theorem bfs_ignores_depth_amended (env : Env) (md md' fuel : Nat)
    (src dest : String) (st : St) :
    copyItemsBfs { env with maxDepth := md } fuel src dest st =
      copyItemsBfs { env with maxDepth := md' } fuel src dest st := by
  rw [copyItemsBfs, copyItemsBfs]
  exact bfsLoop_maxDepth env md md' fuel [(src, dest)] ⟨0, 0⟩ st

/-- C3 counterexample: on the tree `sigma2` (root -> folder `A` -> file `f2`)
with `max_depth = 0`, the region at level index ≤ 0 contains no files at all
(second conjunct), yet the breadth-first replication reports one copied file:
it descends into `A` and copies `f2`, an item whose level index (2) exceeds
the configured max depth — the ceiling the claim says it honors. -/
theorem bfs_ignores_depth_counterexample :
    (copyItemsBfs (treeEnv sigma2 0 1 1) 2 rootId dstId st0).1 =
        some (.ok ⟨1, 1⟩) ∧
      countFiles (listedUpTo sigma2 0 rootId) = 0 := by
  obtain ⟨st2, h⟩ := bfsLoop_clean sigma2 0 1 1 le_rfl le_rfl 1 [(rootId, dstId)] 2
    ⟨0, 0⟩ st0
    (fun p hp => by
      have hpe : p = (rootId, dstId) := by simpa using hp
      rw [hpe]
      decide)
    le_rfl
  constructor
  · rw [show copyItemsBfs (treeEnv sigma2 0 1 1) 2 rootId dstId st0 =
      bfsLoop (treeEnv sigma2 0 1 1) 2 [(rootId, dstId)] ⟨0, 0⟩ st0 from rfl, h]
    rw [show cntAdd ⟨0, 0⟩
      (sumCnt ([(rootId, dstId)].map (fun p => dfsCnt sigma2 1 p.1))) = (⟨1, 1⟩ : Cnt)
      from by decide]
  · decide

/-! ## Retry exhaustion is not contained (claim C8) -/

/-- C8 (amended).  (1) The exhaustion failure is a plain `TimeoutError`,
which the `except` clause of `_list_items` catches and classifies as
retryable — so when a nested recursive listing exhausts its retries, the
parent listing's retry loop absorbs the failure and re-attempts (re-fetching
its current page).  (2) In `_copy_items` a listing failure propagates to the
caller unchanged.  (3) The recursion loop of `_copy_items` propagates a
nested copy's exception unchanged, so the failure of one container's listing
aborts the whole replication run, not just that container's subtree. -/
theorem retry_exhaustion_amended :
    (∀ msg, caught (.timeout msg) = true ∧ retryable (.timeout msg) = true) ∧
    (∀ (env : Env) (src dest : String) (depth : Nat) (recursive : Bool) (st : St)
        (e : PyErr) (st1 : St),
        ¬ depth > env.maxDepth →
        listItems env src 0 false st = (.error e, st1) →
        copyItems env src dest depth recursive st = (.error e, st1)) ∧
    (∀ (next : String → String → St → Except PyErr Cnt × St)
        (m : List (String × String)) (it : Item) (rest : List Item) (cnt : Cnt)
        (st : St) (nid : String) (e : PyErr) (st1 : St),
        isFolder it = true → lookupId m it.id = some nid → nid ≠ "" →
        next it.id nid st = (.error e, st1) →
        dfsRecurse next m (it :: rest) cnt st = (.error e, st1)) := by
  refine ⟨fun msg => ⟨rfl, rfl⟩, ?_, ?_⟩
  · intro env src dest depth recursive st e st1 hd hlist
    rw [copyItems, if_neg hd, hlist]
  · intro next m it rest cnt st nid e st1 hfo hlook hnid hnext
    rw [dfsRecurse]
    simp only [hfo, if_true, hlook]
    rw [if_neg hnid, hnext]

/-- Environment for the C8 counterexample: the root folder holds file `g` and
folder `A`; every listing call after the first (the root page) fails with a
retryable `SSLError`, so listing `A` exhausts its 2 attempts. -/
def env8 : Env :=
  { maxDepth := 1, maxRetries := 2, batchSize := 2,
    pages := fun s => if s = rootId then [[itemG, itemA]] else [[itemF2]],
    fault := fun m => if m = 0 then none else some .ssl,
    jitter := fun _ => 0, opFail := fun _ => false, newId := fun s => "c-" ++ s,
    batchFail := fun _ => none }

/-- C8 counterexample: root's listing and batch succeed (file `g` and folder
`A` are copied), then the recursive copy of `A` exhausts its listing retries;
the resulting `TimeoutError` for folder `A` propagates uncaught through
`_copy_items`, so the whole run returns the error — the partial counters are
lost and the failure is not confined to `A`'s subtree, contradicting the
claim that only that container's subtree is aborted. -/
theorem retry_exhaustion_counterexample :
    (copyItems env8 rootId dstId 0 true st0).1 =
      .error (.timeout (exhaustMsg ("A") 2)) := by
  have h1 : listItems env8 rootId 0 false st0 =
      (.ok [itemG, itemA], { st0 with calls := 1, listed := [rootId] }) := by
    rw [listItems_zero]
    simp only [Bool.false_and]
    rw [retryLoop_k_ok env8 _ rootId [itemG, itemA] rfl 0 env8.maxRetries 0 _
      (by norm_num [env8]) (fun i hi => absurd hi (by omega)) (by norm_num [env8, st0])]
    norm_num [st0]
  have h2 := runChunks_clean env8 (fun m => rfl) (fun s => rfl)
    [[itemG, itemA]] ⟨0, 0⟩ [] { st0 with calls := 1, listed := [rootId] }
  rw [copyItems, if_neg (by norm_num [env8])]
  simp only [h1]
  rw [show dfsChunks env8.batchSize [itemG, itemA] = [[itemG, itemA]] from rfl]
  simp only [h2, dfsLoop1_none, firstFailure_none]
  rw [if_pos (show (true && decide ((0 : Nat) < env8.maxDepth)) = true from rfl)]
  rw [dfsRecurse]
  rw [if_neg (show ¬ isFolder itemG = true from by decide)]
  rw [dfsRecurse]
  rw [if_pos (show isFolder itemA = true from by decide)]
  simp only [show lookupId ([] ++ folderEntries env8 ([[itemG, itemA]] : List (List Item)).flatten)
    itemA.id = some ("c-A") from rfl]
  rw [if_neg (show ¬ ("c-A" : String) = "" from by decide)]
  rw [dif_pos (show (0 : Nat) < env8.maxDepth from by norm_num [env8])]
  rw [copyItems, if_neg (by norm_num [env8])]
  have h3 : ∀ st : St, st.calls = 1 →
      ∃ st2, listItems env8 itemA.id 0 false st =
        (.error (.timeout (exhaustMsg ("A") 2)), st2) := by
    intro st hc
    rw [listItems_zero]
    simp only [Bool.false_and]
    rw [retryLoop_exhaust env8 _ false itemA.id env8.maxRetries 0 0 [] _
      (fun i hi => ⟨.ssl, by
        show env8.fault (st.calls + i) = some .ssl
        rw [hc]
        simp [env8], rfl, rfl⟩)]
    exact ⟨_, rfl⟩
  obtain ⟨st2, hrun⟩ := h3
    { calls := 1, sleeps := st0.sleeps, depthEvents := st0.depthEvents,
      listed := [rootId],
      copiedIds := st0.copiedIds ++ List.map Item.id ([[itemG, itemA]] : List (List Item)).flatten,
      batches := st0.batches + ([[itemG, itemA]] : List (List Item)).length,
      fixedSleeps := st0.fixedSleeps } rfl
  rw [hrun]

/-- Witness for `retry_exhaustion_amended`: the classification of
`TimeoutError`, a concrete `_copy_items` call whose listing fails (the run
returns that error), and a concrete recursion step propagating a nested
error. -/
theorem retry_exhaustion_witness :
    caught (.timeout (exhaustMsg fidF 3)) = true ∧
      retryable (.timeout (exhaustMsg fidF 3)) = true ∧
      copyItems env4 fidF dstId 0 true st0 =
        (.error (.timeout (exhaustMsg fidF 3)),
          { st0 with calls := st0.calls + 1, listed := st0.listed ++ [fidF] }) ∧
      dfsRecurse (fun _ _ st => (.error .ssl, st)) [("A", "x")] [itemA] ⟨0, 0⟩ st0 =
        (.error .ssl, st0) := by
  have hlist : listItems env4 fidF 0 false st0 =
      (.error (.timeout (exhaustMsg fidF env4.maxRetries)),
        { st0 with calls := st0.calls + 1, listed := st0.listed ++ [fidF] }) := by
    rw [listItems_zero]
    simp only [Bool.false_and]
    rw [retryLoop_fatal env4 _ false fidF (.http 404 false) rfl rfl env4.maxRetries
      0 0 [] _ (by norm_num [env4]) rfl]
  refine ⟨(retry_exhaustion_amended.1 (exhaustMsg fidF 3)).1,
    (retry_exhaustion_amended.1 (exhaustMsg fidF 3)).2, ?_, ?_⟩
  · exact retry_exhaustion_amended.2.1 env4 fidF dstId 0 true st0 _ _
      (by norm_num [env4]) hlist
  · exact retry_exhaustion_amended.2.2 (fun _ _ st => (.error .ssl, st))
      [("A", "x")] itemA [] ⟨0, 0⟩ st0 ("x") .ssl st0 rfl rfl (by decide) rfl

/-! ## Failed-folder isolation (claim C10) -/

theorem lookupId_mem (m : List (String × String)) (k v : String)
    (h : lookupId m k = some v) : (k, v) ∈ m := by
  induction m with
  | nil => simp [lookupId] at h
  | cons e rest ih =>
    obtain ⟨a, b⟩ := e
    rw [lookupId] at h
    by_cases hk : (a == k) = true
    · rw [if_pos hk] at h
      have ha : a = k := by simpa using hk
      have hb : b = v := by simpa using h
      rw [ha, hb] at *
      exact List.mem_cons_self _ _
    · rw [if_neg hk] at h
      exact List.mem_cons_of_mem _ (ih h)

theorem lookupId_none_of_miss (f : String) :
    ∀ (ents : List (String × String)), (∀ e ∈ ents, e.1 ≠ f) →
      lookupId ents f = none := by
  intro ents
  induction ents with
  | nil => intro _; rfl
  | cons e rest ih =>
    intro h
    obtain ⟨a, b⟩ := e
    rw [lookupId, if_neg (by simpa using h (a, b) (List.mem_cons_self _ _))]
    exact ih fun e he => h e (List.mem_cons_of_mem _ he)

/-- What one batch's callbacks do to the folder id map and the copy log: the
map and the log each grow by entries whose source item passed its per-item
operation (`handle_batch_response` only logs and skips an item whose response
is an exception). -/
theorem runItems_log (env : Env) (l : List Item) :
    ∀ (cnt : Cnt) (m : List (String × String)) (st : St),
      ∃ ids ents,
        (runItems env l cnt m st).2.1 = m ++ ents ∧
        (runItems env l cnt m st).2.2 =
          { st with copiedIds := st.copiedIds ++ ids } ∧
        (∀ e ∈ ents, env.opFail e.1 = false) ∧
        (∀ x ∈ ids, env.opFail x = false) := by
  induction l with
  | nil =>
    intro cnt m st
    exact ⟨[], [], by simp [runItems], by simp [runItems], by simp, by simp⟩
  | cons it rest ih =>
    intro cnt m st
    cases hop : env.opFail it.id with
    | true =>
      have hstep : runItems env (it :: rest) cnt m st = runItems env rest cnt m st := by
        simp [runItems, handleItem, hop]
      rw [hstep]
      exact ih cnt m st
    | false =>
      cases hfo : isFolder it with
      | true =>
        have hstep : runItems env (it :: rest) cnt m st =
            runItems env rest ⟨cnt.files, cnt.folders + 1⟩
              (m ++ [(it.id, env.newId it.id)])
              { st with copiedIds := st.copiedIds ++ [it.id] } := by
          simp [runItems, handleItem, hop, hfo]
        rw [hstep]
        obtain ⟨ids, ents, h1, h2, h3, h4⟩ := ih _ _ _
        refine ⟨it.id :: ids, (it.id, env.newId it.id) :: ents, ?_, ?_, ?_, ?_⟩
        · rw [h1]; simp
        · rw [h2]; simp
        · intro e he
          rcases List.mem_cons.mp he with h | h
          · rw [h]; exact hop
          · exact h3 e h
        · intro x hx
          rcases List.mem_cons.mp hx with h | h
          · rw [h]; exact hop
          · exact h4 x h
      | false =>
        have hstep : runItems env (it :: rest) cnt m st =
            runItems env rest ⟨cnt.files + 1, cnt.folders⟩ m
              { st with copiedIds := st.copiedIds ++ [it.id] } := by
          simp [runItems, handleItem, hop, hfo]
        rw [hstep]
        obtain ⟨ids, ents, h1, h2, h3, h4⟩ := ih _ _ _
        refine ⟨it.id :: ids, ents, h1, ?_, h3, ?_⟩
        · rw [h2]; simp
        · intro x hx
          rcases List.mem_cons.mp hx with h | h
          · rw [h]; exact hop
          · exact h4 x h

/-- The same accounting across a whole run of submitted batches. -/
theorem runChunks_log (env : Env) (chs : List (List Item)) :
    ∀ (cnt : Cnt) (m : List (String × String)) (st : St),
      ∃ n ids ents,
        (runChunks env chs cnt m st).2.2.1 = m ++ ents ∧
        (runChunks env chs cnt m st).2.2.2 =
          { st with copiedIds := st.copiedIds ++ ids, batches := st.batches + n } ∧
        (∀ e ∈ ents, env.opFail e.1 = false) ∧
        (∀ x ∈ ids, env.opFail x = false) := by
  induction chs with
  | nil =>
    intro cnt m st
    exact ⟨0, [], [], by simp [runChunks], by simp [runChunks], by simp, by simp⟩
  | cons ch rest ih =>
    intro cnt m st
    cases hb : env.batchFail st.batches with
    | some e =>
      have hstep : (runChunks env (ch :: rest) cnt m st).2.2.1 =
            (runChunks env rest cnt m { st with batches := st.batches + 1 }).2.2.1 ∧
          (runChunks env (ch :: rest) cnt m st).2.2.2 =
            (runChunks env rest cnt m { st with batches := st.batches + 1 }).2.2.2 := by
        constructor <;> simp [runChunks, runChunk, hb]
      obtain ⟨n, ids, ents, k1, k2, k3, k4⟩ := ih cnt m { st with batches := st.batches + 1 }
      refine ⟨1 + n, ids, ents, ?_, ?_, k3, k4⟩
      · rw [hstep.1, k1]
      · rw [hstep.2, k2]
        simp [Nat.add_assoc]
    | none =>
      have hstep : (runChunks env (ch :: rest) cnt m st).2.2.1 =
            (runChunks env rest
              (runItems env ch cnt m { st with batches := st.batches + 1 }).1
              (runItems env ch cnt m { st with batches := st.batches + 1 }).2.1
              (runItems env ch cnt m { st with batches := st.batches + 1 }).2.2).2.2.1 ∧
          (runChunks env (ch :: rest) cnt m st).2.2.2 =
            (runChunks env rest
              (runItems env ch cnt m { st with batches := st.batches + 1 }).1
              (runItems env ch cnt m { st with batches := st.batches + 1 }).2.1
              (runItems env ch cnt m { st with batches := st.batches + 1 }).2.2).2.2.2 := by
        constructor <;> simp [runChunks, runChunk, hb]
      obtain ⟨ids1, ents1, g1, g2, g3, g4⟩ :=
        runItems_log env ch cnt m { st with batches := st.batches + 1 }
      obtain ⟨n, ids2, ents2, k1, k2, k3, k4⟩ := ih
        (runItems env ch cnt m { st with batches := st.batches + 1 }).1
        (runItems env ch cnt m { st with batches := st.batches + 1 }).2.1
        (runItems env ch cnt m { st with batches := st.batches + 1 }).2.2
      refine ⟨1 + n, ids1 ++ ids2, ents1 ++ ents2, ?_, ?_, ?_, ?_⟩
      · rw [hstep.1, k1, g1]
        simp
      · rw [hstep.2, k2, g2]
        simp [Nat.add_assoc]
      · intro e he
        rcases List.mem_append.mp he with h | h
        · exact g3 e h
        · exact k3 e h
      · intro x hx
        rcases List.mem_append.mp hx with h | h
        · exact g4 x h
        · exact k4 x h

/-- The first completion-check loop only performs fixed sleeps. -/
theorem dfsLoop1_log (l : List (Option PyErr)) :
    ∀ st : St, ∃ n, (dfsLoop1 l st).2 =
      { st with fixedSleeps := st.fixedSleeps + n } := by
  induction l with
  | nil => intro st; exact ⟨0, by simp [dfsLoop1]⟩
  | cons o rest ih =>
    intro st
    cases o with
    | none =>
      obtain ⟨n, h⟩ := ih st
      exact ⟨n, by rw [dfsLoop1]; exact h⟩
    | some e =>
      cases e with
      | http code rl =>
        cases rl with
        | false =>
          obtain ⟨n, h⟩ := ih st
          refine ⟨n, ?_⟩
          rw [dfsLoop1]
          simpa using h
        | true =>
          obtain ⟨n, h⟩ := ih { st with fixedSleeps := st.fixedSleeps + 1 }
          refine ⟨1 + n, ?_⟩
          rw [dfsLoop1]
          simp only [if_true]
          rw [h]
          simp [Nat.add_assoc]
      | ssl => exact ⟨0, by simp [dfsLoop1]⟩
      | timeout msg => exact ⟨0, by simp [dfsLoop1]⟩
      | valueErr => exact ⟨0, by simp [dfsLoop1]⟩
      | other => exact ⟨0, by simp [dfsLoop1]⟩

/-- A non-recursive pagination pass only performs listing calls: the state is
returned with the call counter advanced and every other field untouched. -/
theorem pagePass_shape (env : Env)
    (child : String → St → Except PyErr (List Item) × St) :
    ∀ (pgs : List (List Item)) (idx : Nat) (items : List Item) (st : St),
      ∃ k, (pagePass env child false pgs idx items st).2 =
        { st with calls := st.calls + k } := by
  intro pgs
  induction pgs with
  | nil =>
    intro idx items st
    cases h : env.fault st.calls with
    | some e => exact ⟨1, by simp [pagePass, h]⟩
    | none => exact ⟨1, by simp [pagePass, h]⟩
  | cons pg rest ih =>
    intro idx items st
    cases h : env.fault st.calls with
    | some e => exact ⟨1, by simp [pagePass, h]⟩
    | none =>
      cases rest with
      | nil => exact ⟨1, by simp [pagePass, h, pageRec]⟩
      | cons pg2 rest2 =>
        obtain ⟨k, hk⟩ := ih (idx + 1) (items ++ pg) { st with calls := st.calls + 1 }
        refine ⟨1 + k, ?_⟩
        rw [pagePass]
        simp only [h, pageRec]
        rw [hk]
        simp [Nat.add_assoc]

/-- Across retry attempts of a non-recursive listing, only the call counter
and the backoff sleep log change. -/
theorem retryLoop_shape (env : Env)
    (child : String → St → Except PyErr (List Item) × St) (fid : String) :
    ∀ (aleft n idx : Nat) (items : List Item) (st : St),
      ∃ k sl, (retryLoop env child false fid aleft n idx items st).2 =
        { st with calls := st.calls + k, sleeps := st.sleeps ++ sl } := by
  intro aleft
  induction aleft with
  | zero =>
    intro n idx items st
    exact ⟨0, [], by simp [retryLoop]⟩
  | succ aleft ih =>
    intro n idx items st
    rw [retryLoop]
    obtain ⟨k, hk⟩ := pagePass_shape env child ((env.pages fid).drop idx) idx items st
    rcases hps : pagePass env child false ((env.pages fid).drop idx) idx items st
      with ⟨out, st1⟩
    rw [hps] at hk
    simp only at hk
    cases out with
    | done its => exact ⟨k, [], by rw [hk]; simp⟩
    | fail e its idx1 =>
      by_cases hc : caught e = true
      · by_cases hrr : retryable e = true
        · simp only [hc, hrr, if_true]
          obtain ⟨k2, sl2, hk2⟩ := ih (n + 1) idx1 its
            { st1 with sleeps := st1.sleeps ++ [(2 : ℚ) ^ n + env.jitter st1.sleeps.length] }
          refine ⟨k + k2, ((2 : ℚ) ^ n + env.jitter st1.sleeps.length) :: sl2, ?_⟩
          rw [hk2, hk]
          simp [Nat.add_assoc]
        · simp only [hc, if_true]
          simp only [hrr, if_false]
          exact ⟨k, [], by rw [hk]; simp⟩
      · simp only [hc, if_false]
        exact ⟨k, [], by rw [hk]; simp⟩

/-- `_list_items` at depth 0 without recursion: besides the call counter and
the sleep log, the only state change is that the listed folder is appended to
the listing trace — whether the listing succeeds or fails. -/
theorem listItems_shape (env : Env) (fid : String) (st : St) :
    ∃ k sl, (listItems env fid 0 false st).2 =
      { st with
          calls := st.calls + k,
          sleeps := st.sleeps ++ sl,
          listed := st.listed ++ [fid] } := by
  rw [listItems_zero]
  simp only [Bool.false_and]
  obtain ⟨k, sl, h⟩ := retryLoop_shape env _ fid env.maxRetries 0 0 []
    { st with listed := st.listed ++ [fid] }
  exact ⟨k, sl, h⟩

/-- The recursion loop of `_copy_items` (arbitrary descent function): when
every key of the frame's folder id map belongs to an item whose create
succeeded, and the descent function itself only ever lists folders that are
its own call root or successfully created, then every folder listed by the
loop was successfully created. -/
theorem dfsRecurse_listed (env : Env)
    (next : String → String → St → Except PyErr Cnt × St)
    (idMap : List (String × String))
    (hkeys : ∀ e ∈ idMap, env.opFail e.1 = false)
    (hnext : ∀ (cid nid : String) (st3 : St) (y : String),
      env.opFail cid = false →
      y ∈ ((next cid nid st3).2).listed → y ∈ st3.listed ∨ env.opFail y = false) :
    ∀ (its : List Item) (cnt : Cnt) (st : St) (x : String),
      x ∈ ((dfsRecurse next idMap its cnt st).2).listed →
      x ∈ st.listed ∨ env.opFail x = false := by
  intro its
  induction its with
  | nil =>
    intro cnt st x hx
    rw [dfsRecurse] at hx
    exact Or.inl hx
  | cons it rest ih =>
    intro cnt st x hx
    rw [dfsRecurse] at hx
    by_cases hfo : isFolder it = true
    · rw [if_pos hfo] at hx
      cases hlk : lookupId idMap it.id with
      | none =>
        simp only [hlk] at hx
        exact ih cnt st x hx
      | some nid =>
        simp only [hlk] at hx
        by_cases hnid : nid = ""
        · rw [if_pos hnid] at hx
          exact ih cnt st x hx
        · rw [if_neg hnid] at hx
          have hcid : env.opFail it.id = false :=
            hkeys (it.id, nid) (lookupId_mem idMap it.id nid hlk)
          rcases hn : next it.id nid st with ⟨res, st1⟩
          simp only [hn] at hx
          have hst1 : ∀ y, y ∈ st1.listed → y ∈ st.listed ∨ env.opFail y = false := by
            intro y hy
            exact hnext it.id nid st y hcid (by rw [hn]; exact hy)
          cases res with
          | error e => exact hst1 x hx
          | ok c =>
            rcases ih (cntAdd cnt c) st1 x hx with h | h
            · exact hst1 x h
            · exact Or.inr h
    · rw [if_neg hfo] at hx
      exact ih cnt st x hx

/-- Every folder `_copy_items` ever lists (descends into) is either already in
the incoming trace, the root of the call itself, or a folder whose create
operation succeeded: the engine never descends into a folder whose create
failed, because such a folder has no folder-id-map entry to recurse through. -/
theorem copyItems_listed (env : Env) :
    ∀ (b depth : Nat), env.maxDepth + 1 - depth ≤ b →
      ∀ (src dest : String) (st : St) (x : String),
        x ∈ ((copyItems env src dest depth true st).2).listed →
        x ∈ st.listed ∨ x = src ∨ env.opFail x = false := by
  intro b
  induction b with
  | zero =>
    intro depth hb src dest st x hx
    rw [copyItems, if_pos (by omega)] at hx
    exact Or.inl hx
  | succ b ih =>
    intro depth hb src dest st x hx
    by_cases hd : depth > env.maxDepth
    · rw [copyItems, if_pos hd] at hx
      exact Or.inl hx
    · rw [copyItems, if_neg hd] at hx
      obtain ⟨kk, sl, hsh⟩ := listItems_shape env src st
      rcases hL : listItems env src 0 false st with ⟨e | items, st1⟩
      · rw [hL] at hsh
        simp only at hsh
        simp only [hL] at hx
        rw [hsh] at hx
        simp only at hx
        rcases List.mem_append.mp hx with h | h
        · exact Or.inl h
        · exact Or.inr (Or.inl (by simpa using h))
      · rw [hL] at hsh
        simp only at hsh
        simp only [hL] at hx
        obtain ⟨nn, ids, ents, hc1, hc2, hc3, hc4⟩ :=
          runChunks_log env (dfsChunks env.batchSize items) ⟨0, 0⟩ [] st1
        rcases hdl : dfsLoop1
            (runChunks env (dfsChunks env.batchSize items) ⟨0, 0⟩ [] st1).1
            (runChunks env (dfsChunks env.batchSize items) ⟨0, 0⟩ [] st1).2.2.2
          with ⟨oe, st2⟩
        obtain ⟨nf, hfx⟩ := dfsLoop1_log
          (runChunks env (dfsChunks env.batchSize items) ⟨0, 0⟩ [] st1).1
          (runChunks env (dfsChunks env.batchSize items) ⟨0, 0⟩ [] st1).2.2.2
        rw [hdl] at hfx
        simp only at hfx
        have hst2 : st2.listed = st.listed ++ [src] := by
          rw [hfx, hc2, hsh]
        have hdone : x ∈ st2.listed → x ∈ st.listed ∨ x = src ∨ env.opFail x = false := by
          intro h
          rw [hst2] at h
          rcases List.mem_append.mp h with h | h
          · exact Or.inl h
          · exact Or.inr (Or.inl (by simpa using h))
        cases oe with
        | some e2 =>
          simp only [hdl] at hx
          exact hdone hx
        | none =>
          simp only [hdl] at hx
          cases hff : firstFailure
              (runChunks env (dfsChunks env.batchSize items) ⟨0, 0⟩ [] st1).1 with
          | some e3 =>
            simp only [hff] at hx
            exact hdone hx
          | none =>
            simp only [hff] at hx
            by_cases hlt : depth < env.maxDepth
            · rw [if_pos (show (true && decide (depth < env.maxDepth)) = true
                from by simp [hlt])] at hx
              have hkeys : ∀ p ∈ (runChunks env (dfsChunks env.batchSize items)
                  ⟨0, 0⟩ [] st1).2.2.1, env.opFail p.1 = false := by
                intro p hp
                rw [hc1] at hp
                simp only [List.nil_append] at hp
                exact hc3 p hp
              have hmain := dfsRecurse_listed env
                (fun cid nid st3 =>
                  if h : depth < env.maxDepth then
                    copyItems env cid nid (depth + 1) true st3
                  else (.ok ⟨0, 0⟩, st3))
                ((runChunks env (dfsChunks env.batchSize items) ⟨0, 0⟩ [] st1).2.2.1)
                hkeys
                (by
                  intro cid nid st3 y hcid hy
                  simp only at hy
                  rw [dif_pos hlt] at hy
                  rcases ih (depth + 1) (by omega) cid nid st3 y hy with h | h | h
                  · exact Or.inl h
                  · rw [h]; exact Or.inr hcid
                  · exact Or.inr h)
                items
                ((runChunks env (dfsChunks env.batchSize items) ⟨0, 0⟩ [] st1).2.1)
                st2 x hx
              rcases hmain with h | h
              · exact hdone h
              · exact Or.inr (Or.inr h)
            · rw [if_neg (show ¬ (true && decide (depth < env.maxDepth)) = true
                from by simp [hlt])] at hx
              exact hdone hx

/-- One BFS level: every entry of the level's folder id map has a key whose
create succeeded, and the folders listed during the level are exactly drawn
from the level's queued pairs. -/
theorem bfsLevelGo_log (env : Env) :
    ∀ (pairs : List (String × String)) (cnt : Cnt) (m : List (String × String))
      (st : St),
      (∀ e ∈ m, env.opFail e.1 = false) →
      (∀ e ∈ (bfsLevelGo env pairs cnt m st).2.2.1, env.opFail e.1 = false) ∧
      (∀ x, x ∈ ((bfsLevelGo env pairs cnt m st).2.2.2).listed →
        x ∈ st.listed ∨ ∃ p ∈ pairs, x = p.1) := by
  intro pairs
  induction pairs with
  | nil =>
    intro cnt m st hm
    constructor
    · intro e he
      exact hm e (by simpa [bfsLevelGo] using he)
    · intro x hx
      exact Or.inl (by simpa [bfsLevelGo] using hx)
  | cons p rest ih =>
    intro cnt m st hm
    obtain ⟨src, dest⟩ := p
    obtain ⟨kk, sl, hsh⟩ := listItems_shape env src st
    rcases hL : listItems env src 0 false st with ⟨e | items, st1⟩
    · rw [hL] at hsh
      simp only at hsh
      constructor
      · intro e' he'
        rw [bfsLevelGo] at he'
        simp only [hL] at he'
        exact hm e' he'
      · intro x hx
        rw [bfsLevelGo] at hx
        simp only [hL] at hx
        rw [hsh] at hx
        simp only at hx
        rcases List.mem_append.mp hx with h | h
        · exact Or.inl h
        · exact Or.inr ⟨(src, dest), List.mem_cons_self _ _, by simpa using h⟩
    · rw [hL] at hsh
      simp only at hsh
      obtain ⟨nn, ids, ents, hc1, hc2, hc3, hc4⟩ :=
        runChunks_log env (chunkList env.batchSize items) cnt m st1
      have hm2 : ∀ e' ∈ (runChunks env (chunkList env.batchSize items) cnt m st1).2.2.1,
          env.opFail e'.1 = false := by
        intro e' he'
        rw [hc1] at he'
        rcases List.mem_append.mp he' with h | h
        · exact hm e' h
        · exact hc3 e' h
      have hih := ih (runChunks env (chunkList env.batchSize items) cnt m st1).2.1
        (runChunks env (chunkList env.batchSize items) cnt m st1).2.2.1
        (runChunks env (chunkList env.batchSize items) cnt m st1).2.2.2 hm2
      constructor
      · intro e' he'
        rw [bfsLevelGo] at he'
        simp only [hL] at he'
        exact hih.1 e' he'
      · intro x hx
        rw [bfsLevelGo] at hx
        simp only [hL] at hx
        rcases hih.2 x hx with h | ⟨p, hp, hxp⟩
        · rw [hc2, hsh] at h
          simp only at h
          rcases List.mem_append.mp h with h2 | h2
          · exact Or.inl h2
          · exact Or.inr ⟨(src, dest), List.mem_cons_self _ _, by simpa using h2⟩
        · exact Or.inr ⟨p, List.mem_cons_of_mem _ hp, hxp⟩

/-- The whole BFS loop: every folder it lists was on the initial queue or had
a successful create (and so reached a later queue through a folder id map). -/
theorem bfsLoop_listed (env : Env) :
    ∀ (fuel : Nat) (q : List (String × String)) (cnt : Cnt) (st : St) (x : String),
      x ∈ ((bfsLoop env fuel q cnt st).2).listed →
      x ∈ st.listed ∨ (∃ p ∈ q, x = p.1) ∨ env.opFail x = false := by
  intro fuel
  induction fuel with
  | zero =>
    intro q cnt st x hx
    cases q with
    | nil => rw [bfsLoop] at hx; exact Or.inl hx
    | cons p q2 => rw [bfsLoop] at hx; exact Or.inl hx
  | succ fuel ih =>
    intro q cnt st x hx
    cases q with
    | nil => rw [bfsLoop] at hx; exact Or.inl hx
    | cons p q2 =>
      rw [bfsLoop] at hx
      have hlv := bfsLevelGo_log env (p :: q2) cnt [] st (by simp)
      rcases hgo : bfsLevelGo env (p :: q2) cnt [] st with ⟨oe, cnt1, m1, st1⟩
      rw [hgo] at hlv
      simp only at hlv
      cases oe with
      | some e =>
        simp only [hgo] at hx
        rcases hlv.2 x hx with h | h
        · exact Or.inl h
        · exact Or.inr (Or.inl h)
      | none =>
        simp only [hgo] at hx
        rcases ih m1 cnt1 st1 x hx with h | h | h
        · rcases hlv.2 x h with h2 | h2
          · exact Or.inl h2
          · exact Or.inr (Or.inl h2)
        · obtain ⟨pp, hpp, hxpp⟩ := h
          exact Or.inr (Or.inr (by rw [hxpp]; exact hlv.1 pp hpp))
        · exact Or.inr (Or.inr h)

/-- Environment for the concrete C10 instance: the `sigmaW` tree (the root
holds file `g` and folder `A`; `A` holds file `f2`), clean listings and
batches, but the create operation for folder `A` fails. -/
def envT : Env :=
  { maxDepth := 1, maxRetries := 1, batchSize := 2,
    pages := fun s => [sigmaW s], fault := fun _ => none, jitter := fun _ => 0,
    opFail := fun s => s == "A", newId := fun s => "c-" ++ s,
    batchFail := fun _ => none }

/-- Final state of both concrete C10 runs: only the root was listed, only
file `g` was copied, one batch ran. -/
def stT : St :=
  { calls := 1, sleeps := [], depthEvents := [], listed := [rootId],
    copiedIds := ["g"], batches := 1, fixedSleeps := 0 }

theorem envT_list_root :
    listItems envT rootId 0 false st0 =
      (.ok [itemG, itemA], { st0 with calls := 1, listed := [rootId] }) := by
  rw [listItems_clean envT rootId [itemG, itemA] st0 (by decide) (fun m => rfl)
    (by decide)]
  norm_num [st0]

theorem envT_dfs_run :
    copyItems envT rootId dstId 0 true st0 = (.ok ⟨1, 0⟩, stT) := by
  rw [copyItems, if_neg (by norm_num [envT])]
  simp only [envT_list_root]
  rw [show dfsChunks envT.batchSize [itemG, itemA] = [[itemG, itemA]] from rfl]
  have h2 : runChunks envT [[itemG, itemA]] ⟨0, 0⟩ []
      { st0 with calls := 1, listed := [rootId] } = ([none], ⟨1, 0⟩, [], stT) := rfl
  simp only [h2, show dfsLoop1 [none] stT = (none, stT) from rfl,
    show firstFailure [none] = none from rfl]
  rw [if_pos (show (true && decide ((0 : Nat) < envT.maxDepth)) = true from rfl)]
  rfl

theorem envT_bfs_run :
    copyItemsBfs envT 2 rootId dstId st0 = (some (.ok ⟨1, 0⟩), stT) := by
  have hck : chunkList envT.batchSize [itemG, itemA] = [[itemG, itemA]] := by
    simp [chunkList, envT]
  have h2 : runChunks envT [[itemG, itemA]] ⟨0, 0⟩ []
      { st0 with calls := 1, listed := [rootId] } = ([none], ⟨1, 0⟩, [], stT) := rfl
  show bfsLoop envT 2 [(rootId, dstId)] ⟨0, 0⟩ st0 = (some (.ok ⟨1, 0⟩), stT)
  rw [show (2 : Nat) = 1 + 1 from rfl, bfsLoop, bfsLevelGo]
  simp only [envT_list_root, hck, h2]
  rfl

/-- C10.  A source folder whose create operation fails (its batch callback
receives an exception) gets no entry in the frame's folder id map — both
modes build that map through the batch callbacks starting from an empty dict;
the DFS recursion loop skips a folder whose id-map lookup yields nothing; a
BFS level's folder id map (which becomes the next queue) never holds a pair
for a failed folder.  Consequently, in either mode, every folder the engine
ever lists (descends into) is the initial root or a folder whose create
succeeded, and every copied-and-counted id passed its per-item operation.  On
the concrete `sigmaW` tree with folder `A` failing, both modes copy only the
root file `g`, report one file and zero folders, and `A`'s child `f2` is
neither copied nor counted. -/
theorem failed_folder_isolation :
    (∀ (env : Env) (f : String), env.opFail f = true →
      ∀ (chs : List (List Item)) (st : St),
        lookupId ((runChunks env chs ⟨0, 0⟩ [] st).2.2.1) f = none) ∧
    (∀ (next : String → String → St → Except PyErr Cnt × St)
        (idMap : List (String × String)) (it : Item) (rest : List Item)
        (cnt : Cnt) (st : St),
        isFolder it = true → lookupId idMap it.id = none →
        dfsRecurse next idMap (it :: rest) cnt st =
          dfsRecurse next idMap rest cnt st) ∧
    (∀ (env : Env) (f : String), env.opFail f = true →
      ∀ (pairs : List (String × String)) (cnt : Cnt) (st : St) (v : String),
        (f, v) ∉ (bfsLevelGo env pairs cnt [] st).2.2.1) ∧
    (∀ (env : Env) (src dest : String) (depth : Nat) (st : St) (x : String),
        x ∈ ((copyItems env src dest depth true st).2).listed →
        x ∈ st.listed ∨ x = src ∨ env.opFail x = false) ∧
    (∀ (env : Env) (fuel : Nat) (src dest : String) (st : St) (x : String),
        x ∈ ((copyItemsBfs env fuel src dest st).2).listed →
        x ∈ st.listed ∨ x = src ∨ env.opFail x = false) ∧
    (∀ (env : Env) (chs : List (List Item)) (cnt : Cnt)
        (m : List (String × String)) (st : St) (x : String),
        x ∈ ((runChunks env chs cnt m st).2.2.2).copiedIds →
        x ∈ st.copiedIds ∨ env.opFail x = false) ∧
    (copyItems envT rootId dstId 0 true st0 = (.ok ⟨1, 0⟩, stT) ∧
      copyItemsBfs envT 2 rootId dstId st0 = (some (.ok ⟨1, 0⟩), stT) ∧
      envT.opFail itemA.id = true ∧ itemF2 ∈ sigmaW itemA.id ∧
      itemA.id ∉ stT.copiedIds ∧ itemF2.id ∉ stT.copiedIds ∧
      itemA.id ∉ stT.listed) := by
  refine ⟨?_, ?_, ?_, ?_, ?_, ?_, ?_⟩
  · intro env f hf chs st
    obtain ⟨n, ids, ents, hc1, hc2, hc3, hc4⟩ := runChunks_log env chs ⟨0, 0⟩ [] st
    rw [hc1, List.nil_append]
    refine lookupId_none_of_miss f ents ?_
    intro e he hef
    have h1 := hc3 e he
    rw [hef, hf] at h1
    simp at h1
  · intro next idMap it rest cnt st hfo hlk
    rw [dfsRecurse, if_pos hfo]
    simp only [hlk]
  · intro env f hf pairs cnt st v hmem
    have hlv := (bfsLevelGo_log env pairs cnt [] st (by simp)).1 (f, v) hmem
    simp only at hlv
    rw [hf] at hlv
    simp at hlv
  · intro env src dest depth st x hx
    exact copyItems_listed env (env.maxDepth + 1 - depth) depth le_rfl src dest st x hx
  · intro env fuel src dest st x hx
    rcases bfsLoop_listed env fuel [(src, dest)] ⟨0, 0⟩ st x hx with h | h | h
    · exact Or.inl h
    · obtain ⟨p, hp, hxp⟩ := h
      have hps : p = (src, dest) := by simpa using hp
      rw [hps] at hxp
      exact Or.inr (Or.inl hxp)
    · exact Or.inr (Or.inr h)
  · intro env chs cnt m st x hx
    obtain ⟨n, ids, ents, hc1, hc2, hc3, hc4⟩ := runChunks_log env chs cnt m st
    rw [hc2] at hx
    simp only at hx
    rcases List.mem_append.mp hx with h | h
    · exact Or.inl h
    · exact Or.inr (hc4 x h)
  · exact ⟨envT_dfs_run, envT_bfs_run, by decide, by decide, by decide, by decide,
      by decide⟩

/-- Witness for `failed_folder_isolation`: the concrete environment `envT`
(folder `A` fails its create) instantiates every part at concrete inputs. -/
theorem failed_folder_isolation_witness :
    lookupId ((runChunks envT [[itemG, itemA]] ⟨0, 0⟩ [] st0).2.2.1) ("A") = none ∧
      dfsRecurse (fun _ _ s => (.ok ⟨0, 0⟩, s)) [] [itemA] ⟨0, 0⟩ st0 =
        dfsRecurse (fun _ _ s => (.ok ⟨0, 0⟩, s)) [] [] ⟨0, 0⟩ st0 ∧
      (("A", "c-A") ∉ (bfsLevelGo envT [(rootId, dstId)] ⟨0, 0⟩ [] st0).2.2.1) ∧
      (rootId ∈ st0.listed ∨ rootId = rootId ∨ envT.opFail rootId = false) ∧
      (rootId ∈ st0.listed ∨ rootId = rootId ∨ envT.opFail rootId = false) ∧
      (("g" : String) ∈ st0.copiedIds ∨ envT.opFail ("g") = false) := by
  refine ⟨failed_folder_isolation.1 envT ("A") rfl [[itemG, itemA]] st0,
    failed_folder_isolation.2.1 (fun _ _ s => (.ok ⟨0, 0⟩, s)) [] itemA [] ⟨0, 0⟩ st0
      rfl rfl,
    failed_folder_isolation.2.2.1 envT ("A") rfl [(rootId, dstId)] ⟨0, 0⟩ st0 ("c-A"),
    failed_folder_isolation.2.2.2.1 envT rootId dstId 0 st0 rootId ?_,
    failed_folder_isolation.2.2.2.2.1 envT 2 rootId dstId st0 rootId ?_,
    failed_folder_isolation.2.2.2.2.2.1 envT [[itemG, itemA]] ⟨0, 0⟩ []
      { st0 with calls := 1, listed := [rootId] } ("g") ?_⟩
  · rw [envT_dfs_run]
    decide
  · rw [envT_bfs_run]
    decide
  · decide
